import Mathlib

/-!
# EIP-712 type-graph construction for Cosmos transactions

A shallow embedding of the typed-data schema construction of the repository:

* `ethereum/eip712/types.go`: `getTypedDataDomain`, `getRootTypes`;
* `ethereum/eip712/eip712.go`: `extractMsgTypes`, `msgAttrsToEIP712Types`,
  `WrapTxToTypedData`, `ComputeTypedDataHash`, `ConstructUntypedEIP712Data`;
* `x/evm/migrations/v2/types/params.go`: `Params.EIP712AllowedMsgFromMsgType`,
  `validateEIP712AllowedMsgs`;
* `x/evm/migrations/v2/store.go`: `NewAllowedMsgs`, `MigrateStore`.

Collaborators outside the repository (the JSON codec, the struct hash and Keccak256 of
go-ethereum, the legacy sign bytes and the parameter store of the SDK) are function
parameters or, for the parameter store, a small model of the operations used.

Go maps `map[string]V` are embedded as association lists with at most one
entry per key; the order of the list carries no meaning (Go maps are
unordered) and every statement below is phrased through lookups and key
counts. Go slices are embedded as lists.
-/

namespace Eip712

/-! ## Data model -/

/-- The go-ethereum record `apitypes.Type`: one named, typed field of a struct type. -/
structure ApiType where
  Name : String
  Type_ : String
  deriving DecidableEq, Repr

/-- The go-ethereum map `apitypes.Types = map[string][]Type`. -/
abbrev Types := List (String × List ApiType)

/-- Map read `m[k]` with presence information: `none` when the key is absent.
Every slice this program stores in the map is non-nil (a composite literal, a
`make` result or the result of an `append` of one element), so the Go test
`m[k] == nil` holds exactly when `get? m k = none`. -/
def Types.get? : Types → String → Option (List ApiType)
  | [], _ => none
  | (k', v) :: rest, k => if k' = k then some v else Types.get? rest k

/-- Map read `m[k]` as a slice: the nil (empty) slice when the key is absent. -/
def Types.index (m : Types) (k : String) : List ApiType :=
  (m.get? k).getD []

/-- Map write `m[k] = v`: replaces the entry of `k` when there is one, adds it otherwise. -/
def Types.set : Types → String → List ApiType → Types
  | [], k, v => [(k, v)]
  | (k', v') :: rest, k, v =>
    if k' = k then (k, v) :: rest else (k', v') :: Types.set rest k v

/-- The keys of the map. -/
def Types.keys (m : Types) : List String := m.map Prod.fst

/-- The record `EIP712MsgAttrType` of the allow-list parameter. -/
structure EIP712MsgAttrType where
  Name : String
  Type_ : String
  deriving DecidableEq, Repr

/-- The record `EIP712NestedMsgType` of the allow-list parameter. -/
structure EIP712NestedMsgType where
  Name : String
  Attrs : List EIP712MsgAttrType
  deriving DecidableEq, Repr

/-- The record `EIP712AllowedMsg`: one schema of the allow-list. -/
structure EIP712AllowedMsg where
  MsgTypeUrl : String
  MsgValueTypeName : String
  ValueTypes : List EIP712MsgAttrType
  NestedTypes : List EIP712NestedMsgType
  deriving DecidableEq, Repr

/-- The EVM module parameters. The chain configuration record is declared
outside the embedded files and is taken as a parameter `CC`. -/
structure Params (CC : Type) where
  EvmDenom : String
  EnableCreate : Bool
  EnableCall : Bool
  ExtraEIPs : List Int
  ChainConfig : CC
  EIP712AllowedMsgs : List EIP712AllowedMsg

/-- What `extractMsgTypes` observes of an `sdk.Msg`: whether its dynamic type
implements `legacytx.LegacyMsg`, and its type URL `sdk.MsgTypeURL(msg)`. -/
structure Msg where
  implementsLegacyMsg : Bool
  MsgTypeURL : String
  deriving DecidableEq, Repr

/-- Registered SDK root errors that this code wraps. -/
inductive RootError where
  | ErrInvalidType
  | ErrJSONUnmarshal
  deriving DecidableEq, Repr

/-- Text of a registered root error. -/
def RootError.Error : RootError → String
  | .ErrInvalidType => "invalid type"
  | .ErrJSONUnmarshal => "failed to unmarshal JSON bytes"

/-- An error built by `sdkerrors.Wrapf(parent, format, args...)`. -/
structure WrappedError where
  parent : RootError
  msg : String
  deriving DecidableEq, Repr

/-- The text `err.Error()` of a wrapped error: description, colon, parent text. -/
def WrappedError.Error (e : WrappedError) : String :=
  e.msg ++ ": " ++ e.parent.Error

/-- The formatting `fmt.Sprintf("%d", n)` of a non-negative integer. -/
def fmtD (n : Nat) : String := toString n

/-! ## `types.go` -/

/-- The record `apitypes.TypedDataDomain`; `ChainId` is a big integer. -/
structure TypedDataDomain where
  Name : String
  Version : String
  ChainId : Int
  VerifyingContract : String
  Salt : String
  deriving DecidableEq, Repr

/-- The Go conversion `int64(x)` of a `uint64` value: two's complement reinterpretation. -/
def int64OfUint64 (x : Nat) : Int :=
  if x % 2 ^ 64 < 2 ^ 63 then ((x % 2 ^ 64 : Nat) : Int) else ((x % 2 ^ 64 : Nat) : Int) - 2 ^ 64

/-- The go-ethereum constructor `math.NewHexOrDecimal256(x int64)`: the big integer of value `x`. -/
def NewHexOrDecimal256 (x : Int) : Int := x

/-- The function `getTypedDataDomain(chainID uint64)`. -/
def getTypedDataDomain (chainID : Nat) : TypedDataDomain :=
  { Name := "Kava Cosmos"
    Version := "1.0.0"
    ChainId := NewHexOrDecimal256 (int64OfUint64 chainID)
    VerifyingContract := "kavaCosmos"
    Salt := "0" }

/-- The function `getRootTypes()`. -/
def getRootTypes : Types :=
  [ ("EIP712Domain",
      [ ⟨"name", "string"⟩, ⟨"version", "string"⟩, ⟨"chainId", "uint256"⟩,
        ⟨"verifyingContract", "string"⟩, ⟨"salt", "string"⟩ ]),
    ("Tx",
      [ ⟨"account_number", "string"⟩, ⟨"chain_id", "string"⟩, ⟨"fee", "Fee"⟩,
        ⟨"memo", "string"⟩, ⟨"sequence", "string"⟩ ]),
    ("Fee", [ ⟨"amount", "Coin[]"⟩, ⟨"gas", "string"⟩ ]),
    ("Coin", [ ⟨"denom", "string"⟩, ⟨"amount", "string"⟩ ]) ]

/-! ## `params.go` -/

/-- The loop of `Params.EIP712AllowedMsgFromMsgType` over the allow-list. -/
def allowedMsgFromMsgTypeLoop : List EIP712AllowedMsg → String → Option EIP712AllowedMsg
  | [], _ => none
  | allowedMsg :: rest, msgTypeUrl =>
    if allowedMsg.MsgTypeUrl = msgTypeUrl then some allowedMsg
    else allowedMsgFromMsgTypeLoop rest msgTypeUrl

/-- The method `Params.EIP712AllowedMsgFromMsgType`: a pointer to a copy of the
first schema with the given type URL, or nil (`none`). -/
def Params.EIP712AllowedMsgFromMsgType {CC : Type} (p : Params CC) (msgTypeUrl : String) :
    Option EIP712AllowedMsg :=
  allowedMsgFromMsgTypeLoop p.EIP712AllowedMsgs msgTypeUrl

/-- A value of type `interface{}` as `validateEIP712AllowedMsgs` sees it: either a
slice of schemas, or a value of another dynamic type (with its `%T` name). -/
inductive ParamValue where
  | allowedMsgs (l : List EIP712AllowedMsg)
  | other (goType : String)

/-- The duplicate check loop of `validateEIP712AllowedMsgs`; `msgTypes` are the keys
of the local map `map[string]bool` of the URLs seen so far. -/
def validateAllowedMsgsLoop : List EIP712AllowedMsg → List String → Option String
  | [], _ => none
  | allowedMsg :: rest, msgTypes =>
    if allowedMsg.MsgTypeUrl ∈ msgTypes then
      some ("duplicate eip712 allowed legacy msg type: " ++ allowedMsg.MsgTypeUrl)
    else validateAllowedMsgsLoop rest (allowedMsg.MsgTypeUrl :: msgTypes)

/-- The function `validateEIP712AllowedMsgs(i interface{}) error`; `none` is the nil error,
`some s` an error of text `s`. -/
def validateEIP712AllowedMsgs : ParamValue → Option String
  | .other goType => some ("invalid EIP712AllowedMsg slice type: " ++ goType)
  | .allowedMsgs allowedMsgs => validateAllowedMsgsLoop allowedMsgs []

/-! ## `eip712.go` -/

/-- The function `msgAttrsToEIP712Types`. -/
def msgAttrsToEIP712Types (attrTypes : List EIP712MsgAttrType) : List ApiType :=
  attrTypes.map fun attrType => { Name := attrType.Name, Type_ := attrType.Type_ }

/-- The inner loop of `extractMsgTypes` over `allowedMsg.NestedTypes`: each nested type
is stored under its name unless the map already has an entry there. -/
def addNestedTypes : List EIP712NestedMsgType → Types → Types
  | [], rootTypes => rootTypes
  | nestedType :: rest, rootTypes =>
    let nestedTypeName := nestedType.Name
    if rootTypes.get? nestedTypeName = none then
      addNestedTypes rest (rootTypes.set nestedTypeName (msgAttrsToEIP712Types nestedType.Attrs))
    else addNestedTypes rest rootTypes

/-- The body of the loop of `extractMsgTypes` for the message of 0-based index `i`
once its schema `allowedMsg` has been found. -/
def addMsgTypes (i : Nat) (allowedMsg : EIP712AllowedMsg) (rootTypes : Types) : Types :=
  let msgAttrName := "msg" ++ fmtD (i + 1)
  let msgTypeName := "Msg" ++ fmtD (i + 1)
  -- Add msg property to tx
  let txMsgType : ApiType := { Name := msgAttrName, Type_ := msgTypeName }
  let rootTypes := rootTypes.set "Tx" (rootTypes.index "Tx" ++ [txMsgType])
  -- Add msg type to root types
  let msgValueTypeName := allowedMsg.MsgValueTypeName
  let rootTypes := rootTypes.set msgTypeName
    [ { Name := "type", Type_ := "string" }, { Name := "value", Type_ := msgValueTypeName } ]
  -- Add msg value type and nested types
  if rootTypes.get? msgValueTypeName = none then
    let rootTypes := rootTypes.set msgValueTypeName (msgAttrsToEIP712Types allowedMsg.ValueTypes)
    addNestedTypes allowedMsg.NestedTypes rootTypes
  else rootTypes

/-- The loop of `extractMsgTypes` from index `i` on, over the remaining messages. The
result is the returned pair: the map and the error (`none` for nil). -/
def extractMsgTypesLoop {CC : Type} (params : Params CC) :
    Nat → List Msg → Types → Types × Option WrappedError
  | _, [], rootTypes => (rootTypes, none)
  | i, msg :: rest, rootTypes =>
    if msg.implementsLegacyMsg = false then
      ([], some ⟨.ErrInvalidType, "msg *legacytx.LegacyMsg must implement legacytx.LegacyMsg"⟩)
    else
      let msgType := msg.MsgTypeURL
      match params.EIP712AllowedMsgFromMsgType msgType with
      | none =>
        ([], some ⟨.ErrInvalidType, "eip712 message type \"" ++ msgType ++ "\" is not permitted"⟩)
      | some allowedMsg =>
        extractMsgTypesLoop params (i + 1) rest (addMsgTypes i allowedMsg rootTypes)

/-- The function `extractMsgTypes(msgs, params)`. -/
def extractMsgTypes {CC : Type} (msgs : List Msg) (params : Params CC) :
    Types × Option WrappedError :=
  extractMsgTypesLoop params 0 msgs getRootTypes

/-! ## Payload maps and `WrapTxToTypedData` -/

/-- A byte string `[]byte`: its bytes as naturals below 256. -/
abbrev Bytes := List Nat

/-- Map read `m[k]` of a Go map with string keys, embedded as an association list:
`none` when the key is absent. -/
def GoMap.get? {V : Type} : List (String × V) → String → Option V
  | [], _ => none
  | (k', v) :: rest, k => if k' = k then some v else GoMap.get? rest k

/-- Map write `m[k] = v`: replaces the entry of `k` when there is one, adds it otherwise. -/
def GoMap.set {V : Type} : List (String × V) → String → V → List (String × V)
  | [], k, v => [(k, v)]
  | (k', v') :: rest, k, v =>
    if k' = k then (k, v) :: rest else (k', v') :: GoMap.set rest k v

/-- The builtin `delete(m, k)`: removes the entry of `k` when there is one. -/
def GoMap.delete {V : Type} : List (String × V) → String → List (String × V)
  | [], _ => []
  | (k', v') :: rest, k =>
    if k' = k then GoMap.delete rest k else (k', v') :: GoMap.delete rest k

/-- The dynamic values of type `interface{}` found in the payload maps: what
`json.Unmarshal` stores (nil, `bool`, `float64`, `string`, `[]interface{}`,
`map[string]interface{}`) and the `json.RawMessage` values the sign document builder
inserts. A number is carried as the rational it denotes; its value is never inspected. -/
inductive JSONValue where
  | null
  | bool (b : Bool)
  | number (x : Rat)
  | string (s : String)
  | array (xs : List JSONValue)
  | object (m : List (String × JSONValue))
  | rawMessage (bz : Bytes)

/-- A non-nil Go map `map[string]interface{}`. -/
abbrev JSONObject := List (String × JSONValue)

/-- The call `json.Unmarshal(data, &m)` for a variable `m` of type `map[string]interface{}`
that is nil or empty, given the JSON parser `decode` (an external collaborator, `none` on a
syntax error). The result is `none` when `Unmarshal` returns an error (syntax error, or a
JSON value that is neither null nor an object), `some none` when `m` is nil afterwards
(JSON null) and `some (some o)` when `m` holds the entries `o` of the decoded object. -/
def unmarshalMap (decode : Bytes → Option JSONValue) (data : Bytes) :
    Option (Option JSONObject) :=
  match decode data with
  | some .null => some none
  | some (.object o) => some (some o)
  | _ => none

/-- The record `FeeDelegationOptions`; `FeePayer` is an `sdk.AccAddress`, a byte string. -/
structure FeeDelegationOptions where
  FeePayer : Bytes

/-- The go-ethereum record `apitypes.TypedData`; `Message` is a `map[string]interface{}`,
`none` for the nil map. -/
structure TypedData where
  Types : Types
  PrimaryType : String
  Domain : TypedDataDomain
  Message : Option JSONObject

/-- The type assertion `txData["fee"].(map[string]interface{})`: the map stored under
`fee` when there is one (`ok` true), `none` otherwise (`ok` false). -/
def feeInfoOf (txData : Option JSONObject) : Option JSONObject :=
  match txData with
  | none => none
  | some o =>
    match GoMap.get? o "fee" with
    | some (.object feeInfo) => some feeInfo
    | _ => none

/-- The function `WrapTxToTypedData`. The JSON parser `decode` and the address formatting
`addrString` (the method `sdk.AccAddress.String`) are external collaborators. The result
is the returned envelope or the returned error. The write `feeInfo["feePayer"] = ...`
goes through the map stored in `txData["fee"]`, so it shows in `txData`. -/
def WrapTxToTypedData {CC : Type} (decode : Bytes → Option JSONValue)
    (addrString : Bytes → String) (chainID : Nat) (msgs : List Msg) (data : Bytes)
    (feeDelegation : Option FeeDelegationOptions) (params : Params CC) :
    Except WrappedError TypedData :=
  match unmarshalMap decode data with
  | none => .error ⟨.ErrJSONUnmarshal, "failed to JSON unmarshal data"⟩
  | some txData =>
    let domain := getTypedDataDomain chainID
    match extractMsgTypes msgs params with
    | (_, some err) => .error err
    | (msgTypes, none) =>
      match feeDelegation with
      | some fd =>
        match feeInfoOf txData with
        | none => .error ⟨.ErrInvalidType, "cannot parse fee from tx data"⟩
        | some feeInfo =>
          let feeInfo := GoMap.set feeInfo "feePayer" (.string (addrString fd.FeePayer))
          let txData := txData.map fun o => GoMap.set o "fee" (.object feeInfo)
          -- also patching msgTypes to include feePayer
          let msgTypes := msgTypes.set "Fee"
            [ { Name := "feePayer", Type_ := "string" },
              { Name := "amount", Type_ := "Coin[]" },
              { Name := "gas", Type_ := "string" } ]
          .ok { Types := msgTypes, PrimaryType := "Tx", Domain := domain, Message := txData }
      | none =>
        .ok { Types := msgTypes, PrimaryType := "Tx", Domain := domain, Message := txData }

/-! ## `ComputeTypedDataHash` -/

/-- An error built by `sdkerrors.Wrap(err, description)` around the error `err` returned
by an external collaborator. -/
structure WrapOf (E : Type) where
  cause : E
  description : String

/-- The function `ComputeTypedDataHash`. The go-ethereum methods `TypedData.HashStruct`
and `TypedDataDomain.Map` and the hash `crypto.Keccak256` are external collaborators;
`E` is the type of the errors of `HashStruct`. The conversions between `[]byte` and
`string` keep the bytes, and `fmt.Sprintf` with the format `\x19\x01%s%s` writes the two
bytes `0x19`, `0x01` and then the bytes of its two arguments. -/
def ComputeTypedDataHash {E : Type}
    (HashStruct : TypedData → String → Option JSONObject → Except E Bytes)
    (domainMap : TypedDataDomain → JSONObject) (Keccak256 : Bytes → Bytes)
    (typedData : TypedData) : Except (WrapOf E) Bytes :=
  match HashStruct typedData "EIP712Domain" (some (domainMap typedData.Domain)) with
  | .error err => .error ⟨err, "failed to pack and hash typedData EIP712Domain"⟩
  | .ok domainSeparator =>
    match HashStruct typedData typedData.PrimaryType typedData.Message with
    | .error err => .error ⟨err, "failed to pack and hash typedData primary type"⟩
    | .ok typedDataHash =>
      let rawData : Bytes := [0x19, 0x01] ++ domainSeparator ++ typedDataHash
      .ok (Keccak256 rawData)

/-! ## `ConstructUntypedEIP712Data` -/

/-- What `ConstructUntypedEIP712Data` observes of an `sdk.Msg`: whether it implements
`legacytx.LegacyMsg` and, when it does, the bytes `legacyMsg.GetSignBytes()`. -/
structure SignableMsg where
  implementsLegacyMsg : Bool
  GetSignBytes : Bytes

/-- The ways `ConstructUntypedEIP712Data` panics. -/
inductive SignDocPanic where
  /-- The call `panic(err)` after `json.Unmarshal`. -/
  | unmarshal
  /-- The call `panic(fmt.Errorf("expected %T when using amino JSON", ...))`. -/
  | notLegacyMsg
  /-- The runtime panic of a write into a nil map. -/
  | nilMapWrite
  /-- The call `panic(err)` after `json.Marshal`. -/
  | marshal
  /-- The panic inside `sdk.MustSortJSON`. -/
  | sortJSON
  deriving DecidableEq, Repr

/-- Map read `m[k]` of a map variable that may hold the nil map (`none`): reading the nil
map finds no key. -/
def GoMap.read? {V : Type} (m : Option (List (String × V))) (k : String) : Option V :=
  match m with
  | none => none
  | some o => GoMap.get? o k

/-- The loop of `ConstructUntypedEIP712Data` from index `i` on: each message must
implement LegacyMsg, and its sign bytes are stored as a `json.RawMessage` under `msgI`. -/
def addMsgFields : Nat → List SignableMsg → Option JSONObject →
    Except SignDocPanic (Option JSONObject)
  | _, [], inInterface => .ok inInterface
  | i, msg :: rest, inInterface =>
    if msg.implementsLegacyMsg = false then .error .notLegacyMsg
    else
      match inInterface with
      | none => .error .nilMapWrite
      | some o =>
        addMsgFields (i + 1) rest
          (some (GoMap.set o ("msg" ++ fmtD (i + 1)) (.rawMessage msg.GetSignBytes)))

/-- The map that `ConstructUntypedEIP712Data` hands to `json.Marshal`: the decoded legacy
sign document without its key `msgs`, with one field per message. -/
def untypedEIP712Map (decode : Bytes → Option JSONValue) (signBytes : Bytes)
    (msgs : List SignableMsg) : Except SignDocPanic (Option JSONObject) :=
  match unmarshalMap decode signBytes with
  | none => .error .unmarshal
  | some inInterface =>
    -- remove msgs from the sign doc since we will be adding them as separate fields
    let inInterface := inInterface.map fun o => GoMap.delete o "msgs"
    -- Add messages as separate fields
    addMsgFields 0 msgs inInterface

/-- The function `ConstructUntypedEIP712Data`. The legacy sign bytes `StdSignBytes`, the
JSON parser `decode`, the encoder `Marshal` (`json.Marshal`, `none` on an error) and
`MustSortJSON` (`none` when it panics) are external collaborators; `Fee` is the type
`legacytx.StdFee`. -/
def ConstructUntypedEIP712Data {Fee : Type}
    (StdSignBytes : String → Nat → Nat → Nat → Fee → List SignableMsg → String → Bytes)
    (decode : Bytes → Option JSONValue) (Marshal : Option JSONObject → Option Bytes)
    (MustSortJSON : Bytes → Option Bytes)
    (chainID : String) (accnum sequence timeout : Nat) (fee : Fee) (msgs : List SignableMsg)
    (memo : String) : Except SignDocPanic Bytes :=
  let signBytes := StdSignBytes chainID accnum sequence timeout fee msgs memo
  match untypedEIP712Map decode signBytes msgs with
  | .error p => .error p
  | .ok inInterface =>
    match Marshal inInterface with
    | none => .error .marshal
    | some bz =>
      match MustSortJSON bz with
      | none => .error .sortJSON
      | some sorted => .ok sorted

/-! ## `migrations/v2/store.go` -/

/-- The allow-list `NewAllowedMsgs` written by the migration. -/
def NewAllowedMsgs : List EIP712AllowedMsg :=
  [
    { MsgTypeUrl := "/kava.evmutil.v1beta1.MsgConvertERC20ToCoin"
      MsgValueTypeName := "MsgValueEVMConvertERC20ToCoin"
      ValueTypes :=
        [⟨"initiator", "string"⟩, ⟨"receiver", "string"⟩,
         ⟨"kava_erc20_address", "string"⟩, ⟨"amount", "string"⟩]
      NestedTypes := [] },
    { MsgTypeUrl := "/kava.evmutil.v1beta1.MsgConvertCoinToERC20"
      MsgValueTypeName := "MsgValueEVMConvertCoinToERC20"
      ValueTypes :=
        [⟨"initiator", "string"⟩, ⟨"receiver", "string"⟩, ⟨"amount", "Coin"⟩]
      NestedTypes := [] },
    { MsgTypeUrl := "/kava.earn.v1beta1.MsgDeposit"
      MsgValueTypeName := "MsgValueEarnDeposit"
      ValueTypes :=
        [⟨"depositor", "string"⟩, ⟨"amount", "Coin"⟩, ⟨"strategy", "int32"⟩]
      NestedTypes := [] },
    { MsgTypeUrl := "/kava.earn.v1beta1.MsgWithdraw"
      MsgValueTypeName := "MsgValueEarnWithdraw"
      ValueTypes :=
        [⟨"from", "string"⟩, ⟨"amount", "Coin"⟩, ⟨"strategy", "int32"⟩]
      NestedTypes := [] },
    { MsgTypeUrl := "/cosmos.staking.v1beta1.MsgDelegate"
      MsgValueTypeName := "MsgValueStakingDelegate"
      ValueTypes :=
        [⟨"delegator_address", "string"⟩, ⟨"validator_address", "string"⟩,
         ⟨"amount", "Coin"⟩]
      NestedTypes := [] },
    { MsgTypeUrl := "/cosmos.staking.v1beta1.MsgUndelegate"
      MsgValueTypeName := "MsgValueStakingUndelegate"
      ValueTypes :=
        [⟨"delegator_address", "string"⟩, ⟨"validator_address", "string"⟩,
         ⟨"amount", "Coin"⟩]
      NestedTypes := [] },
    { MsgTypeUrl := "/cosmos.staking.v1beta1.MsgBeginRedelegate"
      MsgValueTypeName := "MsgValueStakingBeginRedelegate"
      ValueTypes :=
        [⟨"delegator_address", "string"⟩, ⟨"validator_src_address", "string"⟩,
         ⟨"validator_dst_address", "string"⟩, ⟨"amount", "Coin"⟩]
      NestedTypes := [] },
    { MsgTypeUrl := "/kava.incentive.v1beta1.MsgClaimUSDXMintingReward"
      MsgValueTypeName := "MsgValueIncentiveClaimUSDXMintingReward"
      ValueTypes :=
        [⟨"sender", "string"⟩, ⟨"multiplier_name", "string"⟩]
      NestedTypes := [] },
    { MsgTypeUrl := "/kava.incentive.v1beta1.MsgClaimHardReward"
      MsgValueTypeName := "MsgValueIncentiveClaimHardReward"
      ValueTypes :=
        [⟨"sender", "string"⟩, ⟨"denoms_to_claim", "IncentiveSelection[]"⟩]
      NestedTypes :=
        [⟨"IncentiveSelection",
          [⟨"denom", "string"⟩, ⟨"multiplier_name", "string"⟩]⟩] },
    { MsgTypeUrl := "/kava.incentive.v1beta1.MsgClaimDelegatorReward"
      MsgValueTypeName := "MsgValueIncentiveClaimDelegatorReward"
      ValueTypes :=
        [⟨"sender", "string"⟩, ⟨"denoms_to_claim", "IncentiveSelection[]"⟩]
      NestedTypes :=
        [⟨"IncentiveSelection",
          [⟨"denom", "string"⟩, ⟨"multiplier_name", "string"⟩]⟩] },
    { MsgTypeUrl := "/kava.incentive.v1beta1.MsgClaimSwapReward"
      MsgValueTypeName := "MsgValueIncentiveClaimSwapReward"
      ValueTypes :=
        [⟨"sender", "string"⟩, ⟨"denoms_to_claim", "IncentiveSelection[]"⟩]
      NestedTypes :=
        [⟨"IncentiveSelection",
          [⟨"denom", "string"⟩, ⟨"multiplier_name", "string"⟩]⟩] },
    { MsgTypeUrl := "/kava.incentive.v1beta1.MsgClaimSavingsReward"
      MsgValueTypeName := "MsgValueIncentiveClaimSavingsReward"
      ValueTypes :=
        [⟨"sender", "string"⟩, ⟨"denoms_to_claim", "IncentiveSelection[]"⟩]
      NestedTypes :=
        [⟨"IncentiveSelection",
          [⟨"denom", "string"⟩, ⟨"multiplier_name", "string"⟩]⟩] },
    { MsgTypeUrl := "/kava.incentive.v1beta1.MsgClaimEarnReward"
      MsgValueTypeName := "MsgValueIncentiveClaimEarnReward"
      ValueTypes :=
        [⟨"sender", "string"⟩, ⟨"denoms_to_claim", "IncentiveSelection[]"⟩]
      NestedTypes :=
        [⟨"IncentiveSelection",
          [⟨"denom", "string"⟩, ⟨"multiplier_name", "string"⟩]⟩] },
    { MsgTypeUrl := "/kava.router.v1beta1.MsgMintDeposit"
      MsgValueTypeName := "MsgValueRouterMintDeposit"
      ValueTypes :=
        [⟨"depositor", "string"⟩, ⟨"validator", "string"⟩, ⟨"amount", "Coin"⟩]
      NestedTypes := [] },
    { MsgTypeUrl := "/kava.router.v1beta1.MsgDelegateMintDeposit"
      MsgValueTypeName := "MsgValueRouterDelegateMintDeposit"
      ValueTypes :=
        [⟨"depositor", "string"⟩, ⟨"validator", "string"⟩, ⟨"amount", "Coin"⟩]
      NestedTypes := [] },
    { MsgTypeUrl := "/kava.router.v1beta1.MsgWithdrawBurn"
      MsgValueTypeName := "MsgValueRouterWithdrawBurn"
      ValueTypes :=
        [⟨"from", "string"⟩, ⟨"validator", "string"⟩, ⟨"amount", "Coin"⟩]
      NestedTypes := [] },
    { MsgTypeUrl := "/kava.router.v1beta1.MsgWithdrawBurnUndelegate"
      MsgValueTypeName := "MsgValueRouterWithdrawBurnUndelegate"
      ValueTypes :=
        [⟨"from", "string"⟩, ⟨"validator", "string"⟩, ⟨"amount", "Coin"⟩]
      NestedTypes := [] },
    { MsgTypeUrl := "/cosmos.gov.v1beta1.MsgVote"
      MsgValueTypeName := "MsgValueGovVote"
      ValueTypes :=
        [⟨"proposal_id", "uint64"⟩, ⟨"voter", "string"⟩, ⟨"option", "int32"⟩]
      NestedTypes := [] } ]

/-- The parameter key `ParamStoreKeyEIP712AllowedMsgs`. -/
def ParamStoreKeyEIP712AllowedMsgs : String := "EIP712AllowedMsgs"

/-- The printed name (`%T`) of the Go type of a parameter value. -/
def ParamValue.goType : ParamValue → String
  | .allowedMsgs _ => "[]types.EIP712AllowedMsg"
  | .other goType => goType

/-- The identity of a Go type as `reflect.Type` values compare: the import path of the
package that declares its named (element) type, empty for a builtin type, and its printed
name. Two packages that each declare `EIP712AllowedMsg` give two different types with the
same printed name. -/
structure GoType where
  pkgPath : String
  name : String
  deriving DecidableEq, Repr

/-- The type `[]types.EIP712AllowedMsg` of the package `x/evm/types`: the type of
`NewAllowedMsgs` and of the field `Params.EIP712AllowedMsgs`. -/
def allowedMsgsGoType : GoType :=
  ⟨"github.com/tharsis/ethermint/x/evm/types", "[]types.EIP712AllowedMsg"⟩

/-- The type that `reflect.TypeOf` reports for a parameter value: an allow-list value is a
slice of the `EIP712AllowedMsg` of `x/evm/types`; of a value of another type only the
printed name is known, and it is taken as a type declared outside that package. -/
def ParamValue.reflectType : ParamValue → GoType
  | .allowedMsgs _ => allowedMsgsGoType
  | .other goType => ⟨"", goType⟩

/-- The key table `ParamKeyTable()` of `x/evm/types`: the keys registered by
`Params.ParamSetPairs`, each with the Go type of its field. -/
def ParamKeyTable : List (String × GoType) :=
  [ ("EVMDenom", ⟨"", "string"⟩),
    ("EnableCreate", ⟨"", "bool"⟩),
    ("EnableCall", ⟨"", "bool"⟩),
    ("EnableExtraEIPs", ⟨"", "[]int64"⟩),
    ("ChainConfig", ⟨"github.com/tharsis/ethermint/x/evm/types", "types.ChainConfig"⟩),
    ("EIP712AllowedMsgs", allowedMsgsGoType) ]

/-- The parameter store `paramtypes.Subspace` of the SDK (an external collaborator), as
far as `MigrateStore` and its test use it: `table` is the key table (registered key and
the Go type registered for it; empty when no key table was set) and `store` the values
kept in the underlying KV store, which every copy of the subspace reads and writes. The
amino JSON encoding of the stored values is abstracted: the store holds the value. -/
structure Subspace where
  table : List (String × GoType)
  store : List (String × ParamValue)

/-- The method `Subspace.HasKeyTable`: `len(s.table.m) > 0`. -/
def Subspace.HasKeyTable (s : Subspace) : Bool := decide (0 < s.table.length)

/-- The method `Subspace.WithKeyTable`: panics on a subspace that already has a key
table, and otherwise registers every key of the given table. -/
def Subspace.WithKeyTable (s : Subspace) (table : List (String × GoType)) :
    Except String Subspace :=
  if s.table.length ≠ 0 then .error "SetKeyTable() called on already initialized Subspace"
  else .ok { s with table := table.foldl (fun m kv => GoMap.set m kv.1 kv.2) s.table }

/-- The method `Subspace.checkType`: panics unless the key is registered and the Go type
of the value is the registered type itself (the same `reflect.Type`, not only the same
printed name). -/
def Subspace.checkType (s : Subspace) (key : String) (ty : GoType) : Except String Unit :=
  match GoMap.get? s.table key with
  | none => .error ("parameter " ++ key ++ " not registered")
  | some registered =>
    if ty ≠ registered then .error "type mismatch with registered table" else .ok ()

/-- The method `Subspace.Set`: type check against the key table, then the write. -/
def Subspace.Set (s : Subspace) (key : String) (value : ParamValue) : Except String Subspace :=
  match s.checkType key value.reflectType with
  | .error p => .error p
  | .ok () => .ok { s with store := GoMap.set s.store key value }

/-- The method `Subspace.Get` into a pointer to a variable of Go type `ty`: type check
against the key table, then the read; it panics when nothing is stored or when the stored
value does not decode into a variable of that type (the stored encoding carries no package
path, so this is a comparison of the printed names). -/
def Subspace.Get (s : Subspace) (key : String) (ty : GoType) : Except String ParamValue :=
  match s.checkType key ty with
  | .error p => .error p
  | .ok () =>
    match GoMap.get? s.store key with
    | none => .error "unmarshal of a missing value"
    | some value =>
      if value.goType ≠ ty.name then .error "unmarshal of a value of another type"
      else .ok value

/-- The function `MigrateStore`. An `Except.error` is a panic; otherwise the result is
the subspace the write went through (its store is the KV store of the caller's subspace)
and the returned `error`, `none` for nil. -/
def MigrateStore (paramstore : Subspace) : Except String (Subspace × Option String) :=
  match (if paramstore.HasKeyTable = false then paramstore.WithKeyTable ParamKeyTable
      else .ok paramstore) with
  | .error p => .error p
  | .ok paramstore =>
    match paramstore.Set ParamStoreKeyEIP712AllowedMsgs (.allowedMsgs NewAllowedMsgs) with
    | .error p => .error p
    | .ok paramstore => .ok (paramstore, none)

/-! ## Sample data (the allow-list and messages of `TestExtractMsgTypes`) -/

/-- The allow-list of the repository's test `TestExtractMsgTypes`. -/
def testParams : Params Unit :=
  { EvmDenom := "aphoton", EnableCreate := true, EnableCall := true, ExtraEIPs := []
    ChainConfig := ()
    EIP712AllowedMsgs :=
      [ { MsgTypeUrl := "/cosmos.bank.v1beta1.MsgSend"
          MsgValueTypeName := "MsgValueSend"
          ValueTypes := [⟨"from_address", "string"⟩, ⟨"to_address", "string"⟩, ⟨"amount", "Coin[]"⟩]
          NestedTypes := [] },
        { MsgTypeUrl := "/cosmos.staking.v1beta1.MsgDelegate"
          MsgValueTypeName := "MsgValueDelegate"
          ValueTypes :=
            [⟨"delegator_address", "string"⟩, ⟨"validator_address", "string"⟩, ⟨"amount", "Coin"⟩]
          NestedTypes :=
            [ ⟨"Coin", [⟨"denom", "string"⟩, ⟨"amount", "string"⟩]⟩,
              ⟨"Vote", [⟨"voter", "string"⟩]⟩ ] } ] }

/-- The message list of the successful case of `TestExtractMsgTypes`. -/
def testMsgs : List Msg :=
  [ ⟨true, "/cosmos.bank.v1beta1.MsgSend"⟩,
    ⟨true, "/cosmos.staking.v1beta1.MsgDelegate"⟩,
    ⟨true, "/cosmos.bank.v1beta1.MsgSend"⟩ ]

/-- A message list with a message outside the allow-list, as in the failing case of
`TestExtractMsgTypes`. -/
def testMsgsUnpermitted : List Msg :=
  [ ⟨true, "/cosmos.bank.v1beta1.MsgSend"⟩,
    ⟨true, "/cosmos.bank.v1beta1.MsgMultiSend"⟩ ]

/-- An allow-list with two schemas (distinct type URLs) that share the value type name
`MsgValueShared` but declare different fields; the second also declares a nested type. -/
def sharedValueParams : Params Unit :=
  { EvmDenom := "aphoton", EnableCreate := true, EnableCall := true, ExtraEIPs := []
    ChainConfig := ()
    EIP712AllowedMsgs :=
      [ { MsgTypeUrl := "/a.v1.MsgFoo"
          MsgValueTypeName := "MsgValueShared"
          ValueTypes := [⟨"x", "string"⟩]
          NestedTypes := [] },
        { MsgTypeUrl := "/b.v1.MsgBar"
          MsgValueTypeName := "MsgValueShared"
          ValueTypes := [⟨"y", "string"⟩]
          NestedTypes := [⟨"Extra", [⟨"z", "string"⟩]⟩] } ] }

/-- One message of each of the two schemas of `sharedValueParams`. -/
def sharedValueMsgs : List Msg :=
  [ ⟨true, "/a.v1.MsgFoo"⟩, ⟨true, "/b.v1.MsgBar"⟩ ]

/-- An allow-list value in which the third schema repeats the type URL of the first. -/
def duplicateUrlMsgs : List EIP712AllowedMsg :=
  [ ⟨"/a.v1.MsgFoo", "MsgValueFoo", [⟨"x", "string"⟩], []⟩,
    ⟨"/b.v1.MsgBar", "MsgValueBar", [⟨"y", "string"⟩], []⟩,
    ⟨"/a.v1.MsgFoo", "MsgValueFooAgain", [], []⟩,
    ⟨"/b.v1.MsgBar", "MsgValueBarAgain", [], []⟩ ]

/-- A toy JSON parser for the examples: the byte string `[1]` denotes a transaction
document with a fee object, `[2]` one whose `fee` is a string, `[3]` one without `fee`. -/
def sampleDecode (data : Bytes) : Option JSONValue :=
  if data = [1] then
    some (.object
      [ ("account_number", .string "7"),
        ("fee", .object [("amount", .array []), ("gas", .string "200000")]),
        ("memo", .string "") ])
  else if data = [2] then
    some (.object [("fee", .string "none"), ("memo", .string "")])
  else if data = [3] then
    some (.object [("memo", .string "")])
  else none

/-- A toy address formatting for the examples. -/
def sampleAddrString (_ : Bytes) : String := "kava1feepayer"

/-- A toy struct hash for the examples: two bytes for the domain type, one for `Tx`. -/
def sampleHashStruct (_ : TypedData) (primaryType : String) (_ : Option JSONObject) :
    Except String Bytes :=
  if primaryType = "EIP712Domain" then .ok [0xAA, 0xBB]
  else if primaryType = "Tx" then .ok [0xCC]
  else .error "unknown type"

/-- A typed-data envelope for the examples. -/
def sampleTypedData : TypedData :=
  { Types := getRootTypes, PrimaryType := "Tx", Domain := getTypedDataDomain 9000
    Message := some [] }

/-- A toy JSON parser for the sign document examples: the byte string `[7]` denotes a
legacy sign document with an empty aggregate `msgs` list. -/
def sampleSignDecode (data : Bytes) : Option JSONValue :=
  if data = [7] then
    some (.object
      [ ("account_number", .string "0"), ("chain_id", .string "kava_2222-10"),
        ("msgs", .array []), ("sequence", .string "1") ])
  else none

/-- A toy `StdSignBytes` for the examples: always the byte string `[7]`. -/
def sampleStdSignBytes (_ : String) (_ _ _ : Nat) (_ : Unit) (_ : List SignableMsg)
    (_ : String) : Bytes := [7]

/-- Two messages implementing LegacyMsg, with sign bytes `[10]` and `[20]`. -/
def sampleSignMsgs : List SignableMsg := [⟨true, [10]⟩, ⟨true, [20]⟩]

/-- A parameter store whose key table is `ParamKeyTable()` and that holds a denomination
and an empty allow-list. -/
def sampleSubspace : Subspace :=
  { table := ParamKeyTable
    store := [("EVMDenom", .other "string"), ("EIP712AllowedMsgs", .allowedMsgs [])] }

/-- A parameter store with a key table that lacks the allow-list key. -/
def legacySubspace : Subspace :=
  { table := [("EVMDenom", ⟨"", "string"⟩), ("EnableCreate", ⟨"", "bool"⟩)]
    store := [("EVMDenom", .other "string")] }

/-- The parameter store that the repository test `TestMigrateStore` first builds: its key
table is the one of the package `migrations/v2/types`, which registers the key
`EIP712AllowedMsgs` with that package's own `[]types.EIP712AllowedMsg`, and it holds that
package's default parameters. -/
def v2typesSubspace : Subspace :=
  { table :=
      [ ("EVMDenom", ⟨"", "string"⟩),
        ("EnableCreate", ⟨"", "bool"⟩),
        ("EnableCall", ⟨"", "bool"⟩),
        ("EnableExtraEIPs", ⟨"", "[]int64"⟩),
        ("ChainConfig",
          ⟨"github.com/tharsis/ethermint/x/evm/migrations/v2/types", "types.ChainConfig"⟩),
        ("EIP712AllowedMsgs",
          ⟨"github.com/tharsis/ethermint/x/evm/migrations/v2/types",
            "[]types.EIP712AllowedMsg"⟩) ]
    store :=
      [ ("EVMDenom", .other "string"), ("EnableCreate", .other "bool"),
        ("EnableCall", .other "bool"), ("EnableExtraEIPs", .other "[]int64"),
        ("ChainConfig", .other "types.ChainConfig"),
        ("EIP712AllowedMsgs", .other "[]types.EIP712AllowedMsg") ] }

/-- A parameter store without a key table. -/
def bareSubspace : Subspace :=
  { table := [], store := [("EVMDenom", .other "string")] }

/-! ## The JSON codec as `ConstructUntypedEIP712Data` relies on it -/

/-- How one value of the map reads back after `json.Marshal`: a `json.RawMessage` is
written as the JSON text it holds, so it reads back as the value that text decodes to
(`none` when it is no JSON text and `json.Marshal` fails); every other value is a decoded
JSON value and reads back as itself. -/
def resolveValue (decode : Bytes → Option JSONValue) : JSONValue → Option JSONValue
  | .rawMessage raw => decode raw
  | v => some v

/-- How the map reads back after `json.Marshal`: entry by entry, as `resolveValue` says. -/
def resolveRaw (decode : Bytes → Option JSONValue) : JSONObject → Option JSONObject
  | [] => some []
  | (k, v) :: rest =>
    match resolveValue decode v, resolveRaw decode rest with
    | some v', some rest' => some ((k, v') :: rest')
    | _, _ => none

/-- The byte string of an ASCII text. -/
def bytesOf (s : String) : Bytes := s.data.map Char.toNat

/-- Sign bytes of a message whose JSON holds the integer 12345678901234567890, which is
not a float64 value: the nearest float64 is 12345678901234567168, and Go prints it with
the fewest digits that read back to it, as 12345678901234567000. -/
def bigNumberSignBytes : Bytes := bytesOf "\x7b\"n\":12345678901234567890\x7d"

/-- One message implementing LegacyMsg with the sign bytes `bigNumberSignBytes`. -/
def bigNumberMsgs : List SignableMsg := [⟨true, bigNumberSignBytes⟩]

/-- The legacy sign document of that message for chain `c`, account 0, sequence 0, an
empty fee and an empty memo, as `legacytx.StdSignBytes` returns it (sorted, the message
already re-encoded). -/
def bigNumberSignDoc : Bytes := bytesOf
  "\x7b\"account_number\":\"0\",\"chain_id\":\"c\",\"fee\":\x7b\"amount\":[],\"gas\":\"0\"\x7d,\"memo\":\"\",\"msgs\":[\x7b\"n\":12345678901234567000\x7d],\"sequence\":\"0\"\x7d"

/-- The function `legacytx.StdSignBytes` on this example. -/
def bigNumberStdSignBytes (_ : String) (_ _ _ : Nat) (_ : Unit) (_ : List SignableMsg)
    (_ : String) : Bytes := bigNumberSignDoc

/-- What `json.Marshal` returns on the map of this example: keys in sorted order, the raw
message copied as it is. -/
def bigNumberMarshalled : Bytes := bytesOf
  "\x7b\"account_number\":\"0\",\"chain_id\":\"c\",\"fee\":\x7b\"amount\":[],\"gas\":\"0\"\x7d,\"memo\":\"\",\"msg1\":\x7b\"n\":12345678901234567890\x7d,\"sequence\":\"0\"\x7d"

/-- What `sdk.MustSortJSON` returns on `bigNumberMarshalled`: the document decoded into
Go values (numbers as float64) and encoded again. -/
def bigNumberOutput : Bytes := bytesOf
  "\x7b\"account_number\":\"0\",\"chain_id\":\"c\",\"fee\":\x7b\"amount\":[],\"gas\":\"0\"\x7d,\"memo\":\"\",\"msg1\":\x7b\"n\":12345678901234567000\x7d,\"sequence\":\"0\"\x7d"

/-- The decoding `json.Unmarshal` into `interface{}` on the byte strings of this example;
a number is the float64 it is read as. -/
def bigNumberDecode (data : Bytes) : Option JSONValue :=
  if data = bigNumberSignDoc then
    some (.object
      [ ("account_number", .string "0"), ("chain_id", .string "c"),
        ("fee", .object [("amount", .array []), ("gas", .string "0")]),
        ("memo", .string ""),
        ("msgs", .array [.object [("n", .number 12345678901234567168)]]),
        ("sequence", .string "0") ])
  else if data = bigNumberSignBytes then
    some (.object [("n", .number 12345678901234567168)])
  else if data = bigNumberMarshalled ∨ data = bigNumberOutput then
    some (.object
      [ ("account_number", .string "0"), ("chain_id", .string "c"),
        ("fee", .object [("amount", .array []), ("gas", .string "0")]),
        ("memo", .string ""),
        ("msg1", .object [("n", .number 12345678901234567168)]),
        ("sequence", .string "0") ])
  else none

/-- The function `json.Marshal` on the map of this example. -/
def bigNumberMarshal (m : Option JSONObject) : Option Bytes :=
  match GoMap.read? m "msg1" with
  | some (.rawMessage raw) => if raw = bigNumberSignBytes then some bigNumberMarshalled else none
  | _ => none

/-- The function `sdk.MustSortJSON` on this example. -/
def bigNumberSort (bz : Bytes) : Option Bytes :=
  if bz = bigNumberMarshalled then some bigNumberOutput else none

/-- The module parameters after the migration: the allow-list is `NewAllowedMsgs`. -/
def migratedParams : Params Unit :=
  { EvmDenom := "aphoton", EnableCreate := true, EnableCall := true, ExtraEIPs := []
    ChainConfig := ()
    EIP712AllowedMsgs := NewAllowedMsgs }

/-- A claim of rewards followed by a vote, both listed in `NewAllowedMsgs`. -/
def migratedMsgs : List Msg :=
  [ ⟨true, "/kava.incentive.v1beta1.MsgClaimHardReward"⟩,
    ⟨true, "/cosmos.gov.v1beta1.MsgVote"⟩,
    ⟨true, "/kava.incentive.v1beta1.MsgClaimEarnReward"⟩ ]

/-! ## Notions used by the statements about `NewAllowedMsgs` -/

/-- A field type without one trailing `[]` (the element type of an array type); other
field types are left as they are. -/
def stripArray (ty : String) : String :=
  match ty.data.reverse with
  | ']' :: '[' :: rest => String.mk rest.reverse
  | _ => ty

/-- A field of a graph resolves when its type, without a trailing `[]`, is one of the
primitive types `string`, `uint256`, `uint64`, `int32` or the name of an entry of the
graph. -/
def fieldResolved (g : Types) (f : ApiType) : Prop :=
  stripArray f.Type_ ∈ ["string", "uint256", "uint64", "int32"] ∨
    g.get? (stripArray f.Type_) ≠ none

/-- A schema is self-contained when its value type name is not an array type and every
field type of its value type and of its nested types is, without a trailing `[]`,
primitive, a root type or one of its own nested types. -/
def schemaSelfContained (a : EIP712AllowedMsg) : Prop :=
  stripArray a.MsgValueTypeName = a.MsgValueTypeName ∧
  (∀ f ∈ a.ValueTypes,
    stripArray f.Type_ ∈ ["string", "uint256", "uint64", "int32"] ∨
    getRootTypes.get? (stripArray f.Type_) ≠ none ∨
    ∃ n ∈ a.NestedTypes, n.Name = stripArray f.Type_) ∧
  (∀ n ∈ a.NestedTypes, ∀ f ∈ n.Attrs,
    stripArray f.Type_ ∈ ["string", "uint256", "uint64", "int32"] ∨
    getRootTypes.get? (stripArray f.Type_) ≠ none ∨
    ∃ n' ∈ a.NestedTypes, n'.Name = stripArray f.Type_)

/-- Reading a decimal digit string back, most significant digit first (the inverse of
the decimal formatting, used to show that formatting is injective). -/
def readDecimal (cs : List Char) : Nat :=
  cs.foldl (fun a c => a * 10 + (c.toNat - 48)) 0

/-! ## Decimal formatting and the generated names -/

theorem digitChar_toNat (k : Nat) (h : k < 10) : (Nat.digitChar k).toNat - 48 = k := by
  interval_cases k <;> rfl

theorem toDigitsCore_append (fuel : Nat) : ∀ (n : Nat) (ds : List Char),
    Nat.toDigitsCore 10 fuel n ds = Nat.toDigitsCore 10 fuel n [] ++ ds := by
  induction fuel with
  | zero => intro n ds; simp [Nat.toDigitsCore]
  | succ f ih =>
    intro n ds
    simp only [Nat.toDigitsCore]
    split
    · simp
    · rw [ih (n / 10) (_ :: ds), ih (n / 10) [_]]; simp

theorem readDecimal_toDigitsCore (fuel : Nat) : ∀ n : Nat, n < fuel →
    readDecimal (Nat.toDigitsCore 10 fuel n []) = n := by
  induction fuel with
  | zero => intro n h; omega
  | succ f ih =>
    intro n h
    simp only [Nat.toDigitsCore]
    split
    · rename_i h0
      have : n < 10 := by omega
      simp [readDecimal, digitChar_toNat _ (Nat.mod_lt n (by decide : 10 > 0))]
      omega
    · rename_i h0
      rw [toDigitsCore_append]
      have hlt : n / 10 < f := by omega
      have := ih (n / 10) hlt
      simp only [readDecimal, List.foldl_append, List.foldl_cons, List.foldl_nil] at this ⊢
      rw [this, digitChar_toNat _ (Nat.mod_lt n (by decide : 10 > 0))]
      omega

/-- Distinct numbers are formatted to distinct decimal strings. -/
theorem fmtD_injective : Function.Injective fmtD := by
  intro a b h
  have h2 : Nat.toDigits 10 a = Nat.toDigits 10 b := by
    have := congrArg String.data h
    simpa [fmtD, toString, Nat.repr, List.asString] using this
  have ha := readDecimal_toDigitsCore (a + 1) a (Nat.lt_succ_self a)
  have hb := readDecimal_toDigitsCore (b + 1) b (Nat.lt_succ_self b)
  simp only [Nat.toDigits] at h2
  rw [← ha, ← hb, h2]

theorem msgTypeName_inj {a b : Nat} (h : "Msg" ++ fmtD a = "Msg" ++ fmtD b) : a = b := by
  apply fmtD_injective
  have := congrArg String.data h
  simp only [String.data_append] at this
  exact String.ext (List.append_cancel_left this)

theorem msgTypeName_ne_Tx (a : Nat) : "Msg" ++ fmtD a ≠ "Tx" := by
  intro h
  have := congrArg String.data h
  simp [String.data_append] at this

theorem msgTypeName_ne_root (a : Nat) :
    "Msg" ++ fmtD a ≠ "EIP712Domain" ∧ "Msg" ++ fmtD a ≠ "Fee" ∧ "Msg" ++ fmtD a ≠ "Coin" := by
  refine ⟨?_, ?_, ?_⟩ <;> intro h <;> have := congrArg String.data h <;>
    simp [String.data_append] at this

/-! ## The map operations -/

theorem Types.get?_set_self (m : Types) (k : String) (v : List ApiType) :
    (m.set k v).get? k = some v := by
  induction m with
  | nil => simp [Types.set, Types.get?]
  | cons e rest ih =>
    obtain ⟨k', v'⟩ := e
    by_cases h : k' = k
    · simp [Types.set, Types.get?, h]
    · simp [Types.set, Types.get?, h, ih]

theorem Types.get?_set_ne (m : Types) {k k' : String} (v : List ApiType) (hne : k ≠ k') :
    (m.set k v).get? k' = m.get? k' := by
  induction m with
  | nil => simp [Types.set, Types.get?, hne]
  | cons e rest ih =>
    obtain ⟨k0, v0⟩ := e
    by_cases h : k0 = k
    · subst h; simp [Types.set, Types.get?, hne]
    · by_cases h2 : k0 = k'
      · subst h2
        simp [Types.set, Types.get?, h]
      · simp [Types.set, Types.get?, h, h2, ih]

theorem Types.mem_keys_iff (m : Types) (k : String) : k ∈ m.keys ↔ m.get? k ≠ none := by
  induction m with
  | nil => simp [Types.keys, Types.get?]
  | cons e rest ih =>
    obtain ⟨k0, v0⟩ := e
    by_cases h : k0 = k
    · simp [Types.keys, Types.get?, h]
    · have h2 : ¬ k = k0 := fun hh => h hh.symm
      simp only [Types.keys] at ih
      simp [Types.keys, Types.get?, h, h2, ih]

theorem Types.mem_keys_set (m : Types) (k k' : String) (v : List ApiType) :
    k' ∈ (m.set k v).keys ↔ k' = k ∨ k' ∈ m.keys := by
  rw [Types.mem_keys_iff, Types.mem_keys_iff]
  by_cases h : k = k'
  · subst h; simp [Types.get?_set_self]
  · have h2 : ¬ k' = k := fun hh => h hh.symm
    simp [Types.get?_set_ne m v h, h2]

theorem Types.keys_set_nodup (m : Types) (k : String) (v : List ApiType)
    (hm : m.keys.Nodup) : (m.set k v).keys.Nodup := by
  induction m with
  | nil => simp [Types.set, Types.keys]
  | cons e rest ih =>
    obtain ⟨k0, v0⟩ := e
    have hm2 : k0 ∉ Types.keys rest ∧ (Types.keys rest).Nodup := by
      simpa [Types.keys] using hm
    by_cases h : k0 = k
    · subst h
      simpa [Types.set, Types.keys] using hm
    · have hnot : k0 ∉ Types.keys (Types.set rest k v) := by
        rw [Types.mem_keys_set]
        rintro (h1 | h1)
        · exact h h1
        · exact hm2.1 h1
      have := ih hm2.2
      simp only [Types.keys] at this hnot
      simp [Types.set, Types.keys, h, this, hnot]

/-- With pairwise distinct keys, a present key occurs exactly once. -/
theorem Types.count_keys_eq_one (m : Types) (k : String) (hm : m.keys.Nodup)
    (hk : m.get? k ≠ none) : m.keys.count k = 1 :=
  List.count_eq_one_of_mem hm ((Types.mem_keys_iff m k).2 hk)

/-! ## The nested-type loop -/

/-- The nested-type loop never changes an entry that is already present. -/
theorem addNestedTypes_preserves (ns : List EIP712NestedMsgType) :
    ∀ (g : Types) (k : String) (v : List ApiType), g.get? k = some v →
      (addNestedTypes ns g).get? k = some v := by
  induction ns with
  | nil => intro g k v h; simpa [addNestedTypes] using h
  | cons n rest ih =>
    intro g k v h
    simp only [addNestedTypes]
    split
    · rename_i hnone
      apply ih
      have hne : n.Name ≠ k := by
        intro hh; rw [hh] at hnone; rw [hnone] at h; cases h
      rw [Types.get?_set_ne g _ hne]; exact h
    · exact ih g k v h

/-- After the nested-type loop every listed nested type has an entry under its name. -/
theorem addNestedTypes_present (ns : List EIP712NestedMsgType) :
    ∀ (g : Types) (n : EIP712NestedMsgType), n ∈ ns →
      (addNestedTypes ns g).get? n.Name ≠ none := by
  induction ns with
  | nil => intro g n h; cases h
  | cons n0 rest ih =>
    intro g n h
    rcases List.mem_cons.1 h with h1 | h1
    · subst h1
      simp only [addNestedTypes]
      split
      · rw [addNestedTypes_preserves rest _ n.Name _ (Types.get?_set_self g _ _)]
        simp
      · rename_i hsome
        obtain ⟨v, hv⟩ := Option.ne_none_iff_exists'.1 hsome
        rw [addNestedTypes_preserves rest g n.Name v hv]
        simp
    · simp only [addNestedTypes]
      split
      · exact ih _ n h1
      · exact ih _ n h1

theorem addNestedTypes_keys_nodup (ns : List EIP712NestedMsgType) :
    ∀ g : Types, g.keys.Nodup → (addNestedTypes ns g).keys.Nodup := by
  induction ns with
  | nil => intro g h; simpa [addNestedTypes] using h
  | cons n rest ih =>
    intro g h
    simp only [addNestedTypes]
    split
    · exact ih _ (Types.keys_set_nodup g _ _ h)
    · exact ih g h

/-! ## One iteration of the message loop -/

/-- The wrapper type registered for the message of 0-based index `i`. -/
theorem addMsgTypes_wrapper (i : Nat) (a : EIP712AllowedMsg) (g : Types) :
    (addMsgTypes i a g).get? ("Msg" ++ fmtD (i + 1))
      = some [⟨"type", "string"⟩, ⟨"value", a.MsgValueTypeName⟩] := by
  simp only [addMsgTypes]
  split
  · rename_i hnone
    apply addNestedTypes_preserves
    have hne : a.MsgValueTypeName ≠ "Msg" ++ fmtD (i + 1) := by
      intro hh; rw [hh, Types.get?_set_self] at hnone; cases hnone
    rw [Types.get?_set_ne _ _ hne, Types.get?_set_self]
  · rw [Types.get?_set_self]

/-- One iteration appends the field `(msgI, MsgI)` to the `Tx` entry. -/
theorem addMsgTypes_Tx (i : Nat) (a : EIP712AllowedMsg) (g : Types) :
    (addMsgTypes i a g).get? "Tx"
      = some (g.index "Tx" ++ [⟨"msg" ++ fmtD (i + 1), "Msg" ++ fmtD (i + 1)⟩]) := by
  have hTx : ∀ w, ((g.set "Tx" (g.index "Tx" ++ [⟨"msg" ++ fmtD (i + 1), "Msg" ++ fmtD (i + 1)⟩])).set
      ("Msg" ++ fmtD (i + 1)) w).get? "Tx"
      = some (g.index "Tx" ++ [⟨"msg" ++ fmtD (i + 1), "Msg" ++ fmtD (i + 1)⟩]) := by
    intro w
    rw [Types.get?_set_ne _ _ (msgTypeName_ne_Tx (i + 1)), Types.get?_set_self]
  simp only [addMsgTypes]
  split
  · rename_i hnone
    apply addNestedTypes_preserves
    have hne : a.MsgValueTypeName ≠ "Tx" := by
      intro hh; rw [hh, hTx] at hnone; cases hnone
    rw [Types.get?_set_ne _ _ hne, hTx]
  · exact hTx _

/-- One iteration keeps every entry other than `Tx` and the wrapper `MsgI`. -/
theorem addMsgTypes_preserves (i : Nat) (a : EIP712AllowedMsg) (g : Types) (k : String)
    (v : List ApiType) (h : g.get? k = some v) (hTx : k ≠ "Tx")
    (hMsg : k ≠ "Msg" ++ fmtD (i + 1)) : (addMsgTypes i a g).get? k = some v := by
  have h1 : ∀ w, ((g.set "Tx" (g.index "Tx" ++ [⟨"msg" ++ fmtD (i + 1), "Msg" ++ fmtD (i + 1)⟩])).set
      ("Msg" ++ fmtD (i + 1)) w).get? k = some v := by
    intro w
    rw [Types.get?_set_ne _ _ (Ne.symm hMsg), Types.get?_set_ne _ _ (Ne.symm hTx)]; exact h
  simp only [addMsgTypes]
  split
  · rename_i hnone
    apply addNestedTypes_preserves
    have hne : a.MsgValueTypeName ≠ k := by
      intro hh; rw [hh, h1] at hnone; cases hnone
    rw [Types.get?_set_ne _ _ hne, h1]
  · exact h1 _

/-- After one iteration the schema's value type name has an entry. -/
theorem addMsgTypes_value_present (i : Nat) (a : EIP712AllowedMsg) (g : Types) :
    (addMsgTypes i a g).get? a.MsgValueTypeName ≠ none := by
  simp only [addMsgTypes]
  split
  · rw [addNestedTypes_preserves _ _ _ _ (Types.get?_set_self _ _ _)]; simp
  · rename_i hsome; exact hsome

/-- When the value type name is absent from the incoming map and differs from the
wrapper name, one iteration registers the declared value fields and every nested type. -/
theorem addMsgTypes_fresh (i : Nat) (a : EIP712AllowedMsg) (g : Types)
    (habs : g.get? a.MsgValueTypeName = none) (hTx : a.MsgValueTypeName ≠ "Tx")
    (hMsg : a.MsgValueTypeName ≠ "Msg" ++ fmtD (i + 1)) :
    (addMsgTypes i a g).get? a.MsgValueTypeName = some (msgAttrsToEIP712Types a.ValueTypes) ∧
    ∀ n ∈ a.NestedTypes, (addMsgTypes i a g).get? n.Name ≠ none := by
  have h1 : ((g.set "Tx" (g.index "Tx" ++ [⟨"msg" ++ fmtD (i + 1), "Msg" ++ fmtD (i + 1)⟩])).set
      ("Msg" ++ fmtD (i + 1)) [⟨"type", "string"⟩, ⟨"value", a.MsgValueTypeName⟩]).get?
      a.MsgValueTypeName = none := by
    rw [Types.get?_set_ne _ _ (Ne.symm hMsg), Types.get?_set_ne _ _ (Ne.symm hTx)]; exact habs
  simp only [addMsgTypes, h1, if_true]
  refine ⟨addNestedTypes_preserves _ _ _ _ (Types.get?_set_self _ _ _), ?_⟩
  intro n hn
  exact addNestedTypes_present _ _ n hn

theorem addMsgTypes_keys_nodup (i : Nat) (a : EIP712AllowedMsg) (g : Types)
    (h : g.keys.Nodup) : (addMsgTypes i a g).keys.Nodup := by
  have h1 := Types.keys_set_nodup _ ("Msg" ++ fmtD (i + 1))
    [⟨"type", "string"⟩, ⟨"value", a.MsgValueTypeName⟩]
    (Types.keys_set_nodup g "Tx"
      (g.index "Tx" ++ [⟨"msg" ++ fmtD (i + 1), "Msg" ++ fmtD (i + 1)⟩]) h)
  simp only [addMsgTypes]
  split
  · exact addNestedTypes_keys_nodup _ _ (Types.keys_set_nodup _ _ _ h1)
  · exact h1

/-- One iteration never removes a key. -/
theorem addMsgTypes_present (i : Nat) (a : EIP712AllowedMsg) (g : Types) (k : String)
    (h : g.get? k ≠ none) : (addMsgTypes i a g).get? k ≠ none := by
  by_cases hTx : k = "Tx"
  · subst hTx; rw [addMsgTypes_Tx]; simp
  · by_cases hMsg : k = "Msg" ++ fmtD (i + 1)
    · subst hMsg; rw [addMsgTypes_wrapper]; simp
    · obtain ⟨v, hv⟩ := Option.ne_none_iff_exists'.1 h
      rw [addMsgTypes_preserves i a g k v hv hTx hMsg]; simp

/-! ## The allow-list lookup -/

theorem allowedMsgFromMsgTypeLoop_eq_none (l : List EIP712AllowedMsg) (u : String) :
    allowedMsgFromMsgTypeLoop l u = none ↔ ∀ a ∈ l, a.MsgTypeUrl ≠ u := by
  induction l with
  | nil => simp [allowedMsgFromMsgTypeLoop]
  | cons a rest ih =>
    by_cases h : a.MsgTypeUrl = u
    · simp [allowedMsgFromMsgTypeLoop, h]
    · simp [allowedMsgFromMsgTypeLoop, h, ih]

theorem allowedMsgFromMsgTypeLoop_eq_some (l : List EIP712AllowedMsg) (u : String)
    (s : EIP712AllowedMsg) :
    allowedMsgFromMsgTypeLoop l u = some s ↔
      ∃ pre post, l = pre ++ s :: post ∧ (∀ a ∈ pre, a.MsgTypeUrl ≠ u) ∧ s.MsgTypeUrl = u := by
  induction l with
  | nil => simp [allowedMsgFromMsgTypeLoop]
  | cons a rest ih =>
    by_cases h : a.MsgTypeUrl = u
    · simp only [allowedMsgFromMsgTypeLoop, h, if_true, Option.some.injEq]
      constructor
      · intro hs; subst hs
        exact ⟨[], rest, rfl, by simp, h⟩
      · rintro ⟨pre, post, hl, hpre, _⟩
        cases pre with
        | nil => simp at hl; exact hl.1
        | cons b pre' =>
          simp at hl
          exact absurd h (hl.1 ▸ hpre b (List.mem_cons_self _ _))
    · simp only [allowedMsgFromMsgTypeLoop, h, if_false, ih]
      constructor
      · rintro ⟨pre, post, hl, hpre, hs⟩
        refine ⟨a :: pre, post, by simp [hl], ?_, hs⟩
        intro b hb
        rcases List.mem_cons.1 hb with hb | hb
        · subst hb; exact h
        · exact hpre b hb
      · rintro ⟨pre, post, hl, hpre, hs⟩
        cases pre with
        | nil =>
          simp at hl
          exact absurd (hl.1 ▸ hs) h
        | cons b pre' =>
          simp at hl
          exact ⟨pre', post, hl.2, fun c hc => hpre c (List.mem_cons_of_mem _ hc), hs⟩

/-! ## The message loop -/

theorem extractMsgTypesLoop_cons_ok {CC : Type} (params : Params CC) (i : Nat) (m : Msg)
    (rest : List Msg) (g : Types) (a : EIP712AllowedMsg) (hl : m.implementsLegacyMsg = true)
    (ha : params.EIP712AllowedMsgFromMsgType m.MsgTypeURL = some a) :
    extractMsgTypesLoop params i (m :: rest) g
      = extractMsgTypesLoop params (i + 1) rest (addMsgTypes i a g) := by
  simp [extractMsgTypesLoop, hl, ha]

theorem extractMsgTypesLoop_cons_success {CC : Type} (params : Params CC) (i : Nat) (m : Msg)
    (rest : List Msg) (g : Types) (h : (extractMsgTypesLoop params i (m :: rest) g).2 = none) :
    m.implementsLegacyMsg = true ∧ ∃ a, params.EIP712AllowedMsgFromMsgType m.MsgTypeURL = some a ∧
      extractMsgTypesLoop params i (m :: rest) g
        = extractMsgTypesLoop params (i + 1) rest (addMsgTypes i a g) := by
  cases hl : m.implementsLegacyMsg with
  | false => simp [extractMsgTypesLoop, hl] at h
  | true =>
    cases ha : params.EIP712AllowedMsgFromMsgType m.MsgTypeURL with
    | none => simp [extractMsgTypesLoop, hl, ha] at h
    | some a => exact ⟨rfl, a, rfl, extractMsgTypesLoop_cons_ok params i m rest g a hl ha⟩

/-- The loop succeeds when every message implements `LegacyMsg` and is found in the allow-list. -/
theorem extractMsgTypesLoop_success {CC : Type} (params : Params CC) (msgs : List Msg) :
    ∀ (i : Nat) (g : Types),
      (∀ m ∈ msgs, m.implementsLegacyMsg = true ∧
        params.EIP712AllowedMsgFromMsgType m.MsgTypeURL ≠ none) →
      (extractMsgTypesLoop params i msgs g).2 = none := by
  induction msgs with
  | nil => intro i g _; rfl
  | cons m rest ih =>
    intro i g h
    obtain ⟨hl, ha⟩ := h m (List.mem_cons_self _ _)
    obtain ⟨a, ha⟩ := Option.ne_none_iff_exists'.1 ha
    rw [extractMsgTypesLoop_cons_ok params i m rest g a hl ha]
    exact ih _ _ (fun x hx => h x (List.mem_cons_of_mem _ hx))

/-- A successful loop only succeeds on messages that implement `LegacyMsg` and are allowed. -/
theorem extractMsgTypesLoop_success_all {CC : Type} (params : Params CC) (msgs : List Msg) :
    ∀ (i : Nat) (g : Types), (extractMsgTypesLoop params i msgs g).2 = none →
      ∀ m ∈ msgs, m.implementsLegacyMsg = true ∧
        params.EIP712AllowedMsgFromMsgType m.MsgTypeURL ≠ none := by
  induction msgs with
  | nil => intro i g _ m hm; cases hm
  | cons m0 rest ih =>
    intro i g h m hm
    obtain ⟨hl, a, ha, heq⟩ := extractMsgTypesLoop_cons_success params i m0 rest g h
    rcases List.mem_cons.1 hm with h1 | h1
    · subst h1; exact ⟨hl, by simp [ha]⟩
    · rw [heq] at h
      exact ih _ _ h m h1

/-- The `Tx` entry after a successful loop: the incoming fields followed by one field per message. -/
theorem extractMsgTypesLoop_Tx {CC : Type} (params : Params CC) (msgs : List Msg) :
    ∀ (i : Nat) (g : Types) (t : List ApiType),
      (extractMsgTypesLoop params i msgs g).2 = none → g.get? "Tx" = some t →
      (extractMsgTypesLoop params i msgs g).1.get? "Tx"
        = some (t ++ (List.range msgs.length).map
            (fun n => (⟨"msg" ++ fmtD (i + n + 1), "Msg" ++ fmtD (i + n + 1)⟩ : ApiType))) := by
  induction msgs with
  | nil => intro i g t _ ht; simpa [extractMsgTypesLoop] using ht
  | cons m rest ih =>
    intro i g t h ht
    obtain ⟨_, a, _, heq⟩ := extractMsgTypesLoop_cons_success params i m rest g h
    rw [heq] at h ⊢
    have hstep := addMsgTypes_Tx i a g
    simp only [Types.index, ht, Option.getD_some] at hstep
    rw [ih (i + 1) _ _ h hstep]
    simp only [List.length_cons, List.range_succ_eq_map, List.map_cons, List.map_map,
      List.append_assoc, List.singleton_append, Nat.add_zero]
    congr 3
    apply List.map_congr_left
    intro n _
    simp only [Function.comp, Nat.succ_eq_add_one]
    rw [show i + 1 + n + 1 = i + (n + 1) + 1 by omega]

/-- A successful loop keeps every entry whose key is neither `Tx` nor one of the wrapper
names it registers. -/
theorem extractMsgTypesLoop_preserves {CC : Type} (params : Params CC) (msgs : List Msg) :
    ∀ (i : Nat) (g : Types) (k : String) (v : List ApiType),
      (extractMsgTypesLoop params i msgs g).2 = none → g.get? k = some v → k ≠ "Tx" →
      (∀ n, i ≤ n → n < i + msgs.length → k ≠ "Msg" ++ fmtD (n + 1)) →
      (extractMsgTypesLoop params i msgs g).1.get? k = some v := by
  induction msgs with
  | nil => intro i g k v _ hk _ _; simpa [extractMsgTypesLoop] using hk
  | cons m rest ih =>
    intro i g k v h hk hTx hMsg
    obtain ⟨_, a, _, heq⟩ := extractMsgTypesLoop_cons_success params i m rest g h
    rw [heq] at h ⊢
    apply ih (i + 1) _ k v h
    · exact addMsgTypes_preserves i a g k v hk hTx
        (hMsg i (Nat.le_refl _) (by simp))
    · exact hTx
    · intro n hn1 hn2
      exact hMsg n (by omega) (by simp only [List.length_cons]; omega)

/-- A successful loop never removes a key. -/
theorem extractMsgTypesLoop_present {CC : Type} (params : Params CC) (msgs : List Msg) :
    ∀ (i : Nat) (g : Types) (k : String),
      (extractMsgTypesLoop params i msgs g).2 = none → g.get? k ≠ none →
      (extractMsgTypesLoop params i msgs g).1.get? k ≠ none := by
  induction msgs with
  | nil => intro i g k _ hk; simpa [extractMsgTypesLoop] using hk
  | cons m rest ih =>
    intro i g k h hk
    obtain ⟨_, a, _, heq⟩ := extractMsgTypesLoop_cons_success params i m rest g h
    rw [heq] at h ⊢
    exact ih (i + 1) _ k h (addMsgTypes_present i a g k hk)

theorem extractMsgTypesLoop_keys_nodup {CC : Type} (params : Params CC) (msgs : List Msg) :
    ∀ (i : Nat) (g : Types),
      (extractMsgTypesLoop params i msgs g).2 = none → g.keys.Nodup →
      (extractMsgTypesLoop params i msgs g).1.keys.Nodup := by
  induction msgs with
  | nil => intro i g _ hk; simpa [extractMsgTypesLoop] using hk
  | cons m rest ih =>
    intro i g h hk
    obtain ⟨_, a, _, heq⟩ := extractMsgTypesLoop_cons_success params i m rest g h
    rw [heq] at h ⊢
    exact ih (i + 1) _ h (addMsgTypes_keys_nodup i a g hk)

/-- After a successful loop the wrapper entry of every message is the one registered at
its own iteration. -/
theorem extractMsgTypesLoop_wrapper {CC : Type} (params : Params CC) (msgs : List Msg) :
    ∀ (i : Nat) (g : Types) (n : Nat) (m : Msg),
      (extractMsgTypesLoop params i msgs g).2 = none → msgs[n]? = some m →
      ∃ a, params.EIP712AllowedMsgFromMsgType m.MsgTypeURL = some a ∧
        (extractMsgTypesLoop params i msgs g).1.get? ("Msg" ++ fmtD (i + n + 1))
          = some [⟨"type", "string"⟩, ⟨"value", a.MsgValueTypeName⟩] := by
  induction msgs with
  | nil => intro i g n m _ hm; simp at hm
  | cons m0 rest ih =>
    intro i g n m h hm
    obtain ⟨_, a, ha, heq⟩ := extractMsgTypesLoop_cons_success params i m0 rest g h
    rw [heq] at h ⊢
    cases n with
    | zero =>
      simp at hm; subst hm
      refine ⟨a, ha, ?_⟩
      apply extractMsgTypesLoop_preserves params rest (i + 1) _ _ _ h
      · exact addMsgTypes_wrapper i a g
      · exact msgTypeName_ne_Tx _
      · intro n hn _ hh
        have := msgTypeName_inj hh
        omega
    | succ n' =>
      simp at hm
      obtain ⟨a', ha', hw⟩ := ih (i + 1) _ n' m h hm
      refine ⟨a', ha', ?_⟩
      rw [show i + (n' + 1) + 1 = i + 1 + n' + 1 by omega]
      exact hw

/-- Splitting a successful loop at any point. -/
theorem extractMsgTypesLoop_append {CC : Type} (params : Params CC) (pre post : List Msg) :
    ∀ (i : Nat) (g : Types), (extractMsgTypesLoop params i pre g).2 = none →
      extractMsgTypesLoop params i (pre ++ post) g
        = extractMsgTypesLoop params (i + pre.length) post
            (extractMsgTypesLoop params i pre g).1 := by
  induction pre with
  | nil => intro i g _; simp [extractMsgTypesLoop]
  | cons m rest ih =>
    intro i g h
    obtain ⟨hl, a, ha, heq⟩ := extractMsgTypesLoop_cons_success params i m rest g h
    rw [heq] at h ⊢
    rw [List.cons_append, extractMsgTypesLoop_cons_ok params i m (rest ++ post) g a hl ha,
      ih (i + 1) _ h]
    rw [show i + 1 + rest.length = i + (m :: rest).length by simp only [List.length_cons]; omega]

/-- A loop that succeeds on a list succeeds on each of its prefixes. -/
theorem extractMsgTypesLoop_initial {CC : Type} (params : Params CC) (pre post : List Msg)
    (i : Nat) (g : Types) (h : (extractMsgTypesLoop params i (pre ++ post) g).2 = none) :
    (extractMsgTypesLoop params i pre g).2 = none := by
  apply extractMsgTypesLoop_success
  intro m hm
  exact extractMsgTypesLoop_success_all params _ i g h m (List.mem_append_left _ hm)

/-! ## `extractMsgTypes`: the `Tx` entry, the wrappers and the failure case -/

/-- The graph handed to the loop by `extractMsgTypes` has an entry `Tx` with the five base fields. -/
theorem getRootTypes_Tx : getRootTypes.get? "Tx"
    = some [⟨"account_number", "string"⟩, ⟨"chain_id", "string"⟩, ⟨"fee", "Fee"⟩,
        ⟨"memo", "string"⟩, ⟨"sequence", "string"⟩] := by
  decide

theorem getRootTypes_keys_nodup : getRootTypes.keys.Nodup := by
  decide

/-- Being listed in the allow-list is the same as being found by the lookup. -/
theorem lookup_ne_none_iff {CC : Type} (params : Params CC) (u : String) :
    params.EIP712AllowedMsgFromMsgType u ≠ none ↔
      ∃ a ∈ params.EIP712AllowedMsgs, a.MsgTypeUrl = u := by
  unfold Params.EIP712AllowedMsgFromMsgType
  rw [Ne, allowedMsgFromMsgTypeLoop_eq_none]
  push_neg
  rfl

/-- C1: when every message implements LegacyMsg and has its type URL in the allow-list,
`extractMsgTypes` succeeds, the `Tx` entry is the five base fields followed by the fields
`(msg1, Msg1) .. (msgN, MsgN)` in input order, and every `MsgI` with `1 ≤ I ≤ N` has an
entry. (The statement also holds for the empty list.) -/
theorem extractMsgTypes_tx_fields {CC : Type} (params : Params CC) (msgs : List Msg)
    (hall : ∀ m ∈ msgs, m.implementsLegacyMsg = true ∧
      ∃ a ∈ params.EIP712AllowedMsgs, a.MsgTypeUrl = m.MsgTypeURL) :
    (extractMsgTypes msgs params).2 = none ∧
    (extractMsgTypes msgs params).1.get? "Tx"
      = some ([⟨"account_number", "string"⟩, ⟨"chain_id", "string"⟩, ⟨"fee", "Fee"⟩,
          ⟨"memo", "string"⟩, ⟨"sequence", "string"⟩]
        ++ (List.range msgs.length).map
            (fun n => (⟨"msg" ++ fmtD (n + 1), "Msg" ++ fmtD (n + 1)⟩ : ApiType))) ∧
    ∀ i, 1 ≤ i → i ≤ msgs.length →
      (extractMsgTypes msgs params).1.get? ("Msg" ++ fmtD i) ≠ none := by
  have hok : (extractMsgTypes msgs params).2 = none := by
    apply extractMsgTypesLoop_success
    intro m hm
    exact ⟨(hall m hm).1, (lookup_ne_none_iff params _).2 (hall m hm).2⟩
  refine ⟨hok, ?_, ?_⟩
  · have := extractMsgTypesLoop_Tx params msgs 0 getRootTypes _ hok getRootTypes_Tx
    simpa [extractMsgTypes] using this
  · intro i h1 h2
    obtain ⟨m, hm⟩ : ∃ m, msgs[i - 1]? = some m := by
      have : i - 1 < msgs.length := by omega
      exact ⟨msgs[i - 1], List.getElem?_eq_getElem this⟩
    obtain ⟨a, _, hw⟩ := extractMsgTypesLoop_wrapper params msgs 0 getRootTypes (i - 1) m hok hm
    rw [show 0 + (i - 1) + 1 = i by omega] at hw
    unfold extractMsgTypes
    rw [hw]; simp

/-- C1 at the three messages of the repository test: three fields `msg1..msg3` after the
five base fields. -/
theorem extractMsgTypes_tx_fields_witness :
    (∀ m ∈ testMsgs, m.implementsLegacyMsg = true ∧
      ∃ a ∈ testParams.EIP712AllowedMsgs, a.MsgTypeUrl = m.MsgTypeURL) ∧
    (extractMsgTypes testMsgs testParams).2 = none ∧
    (extractMsgTypes testMsgs testParams).1.get? "Tx"
      = some [⟨"account_number", "string"⟩, ⟨"chain_id", "string"⟩, ⟨"fee", "Fee"⟩,
          ⟨"memo", "string"⟩, ⟨"sequence", "string"⟩, ⟨"msg1", "Msg1"⟩, ⟨"msg2", "Msg2"⟩,
          ⟨"msg3", "Msg3"⟩] ∧
    (extractMsgTypes testMsgs testParams).1.get? "Msg2" ≠ none := by
  have hall : ∀ m ∈ testMsgs, m.implementsLegacyMsg = true ∧
      ∃ a ∈ testParams.EIP712AllowedMsgs, a.MsgTypeUrl = m.MsgTypeURL := by
    decide
  have h := extractMsgTypes_tx_fields testParams testMsgs hall
  exact ⟨hall, h.1, h.2.1, h.2.2 2 (by decide) (by decide)⟩

/-- C2: on success, for every index `1 ≤ i ≤ N` the entry `MsgI` is exactly
`[(type, string), (value, V_i)]` with `V_i` the value type name of the schema looked up
for message `i`, whatever names the schemas use. -/
theorem extractMsgTypes_wrapper_entries {CC : Type} (params : Params CC) (msgs : List Msg)
    (hok : (extractMsgTypes msgs params).2 = none) (i : Nat) (h1 : 1 ≤ i)
    (h2 : i ≤ msgs.length) :
    ∃ m a, msgs[i - 1]? = some m ∧
      params.EIP712AllowedMsgFromMsgType m.MsgTypeURL = some a ∧
      (extractMsgTypes msgs params).1.get? ("Msg" ++ fmtD i)
        = some [⟨"type", "string"⟩, ⟨"value", a.MsgValueTypeName⟩] := by
  obtain ⟨m, hm⟩ : ∃ m, msgs[i - 1]? = some m := by
    have : i - 1 < msgs.length := by omega
    exact ⟨msgs[i - 1], List.getElem?_eq_getElem this⟩
  obtain ⟨a, ha, hw⟩ := extractMsgTypesLoop_wrapper params msgs 0 getRootTypes (i - 1) m hok hm
  rw [show 0 + (i - 1) + 1 = i by omega] at hw
  exact ⟨m, a, hm, ha, hw⟩

/-- C2 at the repository test: the third message is a `MsgSend`, so `Msg3` wraps
`MsgValueSend`, the value type already used by `Msg1`. -/
theorem extractMsgTypes_wrapper_entries_witness :
    (extractMsgTypes testMsgs testParams).2 = none ∧
    ∃ m a, testMsgs[3 - 1]? = some m ∧
      testParams.EIP712AllowedMsgFromMsgType m.MsgTypeURL = some a ∧
      (extractMsgTypes testMsgs testParams).1.get? ("Msg" ++ fmtD 3)
        = some [⟨"type", "string"⟩, ⟨"value", a.MsgValueTypeName⟩] :=
  ⟨by decide, extractMsgTypes_wrapper_entries testParams testMsgs (by decide) 3 (by decide)
    (by decide)⟩

/-- The loop fails at the first message that is not in the allow-list, returning the
empty graph and the error naming that message's type URL. -/
theorem extractMsgTypesLoop_unpermitted {CC : Type} (params : Params CC) (pre post : List Msg)
    (m : Msg) (i : Nat) (g : Types)
    (hpre : ∀ x ∈ pre, x.implementsLegacyMsg = true ∧
      params.EIP712AllowedMsgFromMsgType x.MsgTypeURL ≠ none)
    (hl : m.implementsLegacyMsg = true)
    (hm : params.EIP712AllowedMsgFromMsgType m.MsgTypeURL = none) :
    extractMsgTypesLoop params i (pre ++ m :: post) g
      = ([], some ⟨.ErrInvalidType,
          "eip712 message type \"" ++ m.MsgTypeURL ++ "\" is not permitted"⟩) := by
  rw [extractMsgTypesLoop_append params pre (m :: post) i g
    (extractMsgTypesLoop_success params pre i g hpre)]
  simp [extractMsgTypesLoop, hl, hm]

/-- A list with a message the lookup does not find splits at the first such message. -/
theorem first_unpermitted {CC : Type} (params : Params CC) (msgs : List Msg)
    (hbad : ∃ m ∈ msgs, params.EIP712AllowedMsgFromMsgType m.MsgTypeURL = none) :
    ∃ pre m post, msgs = pre ++ m :: post ∧
      (∀ x ∈ pre, params.EIP712AllowedMsgFromMsgType x.MsgTypeURL ≠ none) ∧
      params.EIP712AllowedMsgFromMsgType m.MsgTypeURL = none := by
  induction msgs with
  | nil => obtain ⟨m, hm, _⟩ := hbad; cases hm
  | cons m0 rest ih =>
    by_cases h0 : params.EIP712AllowedMsgFromMsgType m0.MsgTypeURL = none
    · exact ⟨[], m0, rest, rfl, by simp, h0⟩
    · obtain ⟨m, hm, hmn⟩ := hbad
      rcases List.mem_cons.1 hm with h1 | h1
      · subst h1; exact absurd hmn h0
      · obtain ⟨pre, m', post, hsplit, hpre, hm'⟩ := ih ⟨m, h1, hmn⟩
        refine ⟨m0 :: pre, m', post, by simp [hsplit], ?_, hm'⟩
        intro x hx
        rcases List.mem_cons.1 hx with hx | hx
        · subst hx; exact h0
        · exact hpre x hx

/-- C3: when every message implements LegacyMsg and some message's type URL is not in the
allow-list, `extractMsgTypes` returns the empty graph together with an error whose text is
`eip712 message type "<url>" is not permitted: invalid type`, where `<url>` is the type URL
of the first message in input order that is not in the allow-list. -/
theorem extractMsgTypes_unpermitted {CC : Type} (params : Params CC) (msgs : List Msg)
    (hleg : ∀ m ∈ msgs, m.implementsLegacyMsg = true)
    (hbad : ∃ m ∈ msgs, ∀ a ∈ params.EIP712AllowedMsgs, a.MsgTypeUrl ≠ m.MsgTypeURL) :
    ∃ pre m post err, msgs = pre ++ m :: post ∧
      (∀ x ∈ pre, ∃ a ∈ params.EIP712AllowedMsgs, a.MsgTypeUrl = x.MsgTypeURL) ∧
      (∀ a ∈ params.EIP712AllowedMsgs, a.MsgTypeUrl ≠ m.MsgTypeURL) ∧
      extractMsgTypes msgs params = ([], some err) ∧
      err.msg = "eip712 message type \"" ++ m.MsgTypeURL ++ "\" is not permitted" ∧
      err.Error = "eip712 message type \"" ++ m.MsgTypeURL ++ "\" is not permitted: invalid type" := by
  have hbad' : ∃ m ∈ msgs, params.EIP712AllowedMsgFromMsgType m.MsgTypeURL = none := by
    obtain ⟨m, hm, hno⟩ := hbad
    exact ⟨m, hm, (allowedMsgFromMsgTypeLoop_eq_none _ _).2 hno⟩
  obtain ⟨pre, m, post, hsplit, hpre, hm⟩ := first_unpermitted params msgs hbad'
  refine ⟨pre, m, post,
    ⟨.ErrInvalidType, "eip712 message type \"" ++ m.MsgTypeURL ++ "\" is not permitted"⟩,
    hsplit, ?_, (allowedMsgFromMsgTypeLoop_eq_none _ _).1 hm, ?_, rfl, ?_⟩
  · intro x hx
    exact (lookup_ne_none_iff params _).1 (hpre x hx)
  · subst hsplit
    exact extractMsgTypesLoop_unpermitted params pre post m 0 getRootTypes
      (fun x hx => ⟨hleg x (List.mem_append_left _ hx), hpre x hx⟩)
      (hleg m (by simp)) hm
  · simp [WrappedError.Error, RootError.Error, String.append_assoc]

/-- C3 at the failing case of the repository test: the error names `MsgMultiSend`. -/
theorem extractMsgTypes_unpermitted_witness :
    (∀ m ∈ testMsgsUnpermitted, m.implementsLegacyMsg = true) ∧
    (∃ m ∈ testMsgsUnpermitted,
      ∀ a ∈ testParams.EIP712AllowedMsgs, a.MsgTypeUrl ≠ m.MsgTypeURL) ∧
    (∃ pre m post err, testMsgsUnpermitted = pre ++ m :: post ∧
      (∀ x ∈ pre, ∃ a ∈ testParams.EIP712AllowedMsgs, a.MsgTypeUrl = x.MsgTypeURL) ∧
      (∀ a ∈ testParams.EIP712AllowedMsgs, a.MsgTypeUrl ≠ m.MsgTypeURL) ∧
      extractMsgTypes testMsgsUnpermitted testParams = ([], some err) ∧
      err.msg = "eip712 message type \"" ++ m.MsgTypeURL ++ "\" is not permitted" ∧
      err.Error = "eip712 message type \"" ++ m.MsgTypeURL ++ "\" is not permitted: invalid type") ∧
    ((extractMsgTypes testMsgsUnpermitted testParams).2.map WrappedError.Error
      = some "eip712 message type \"/cosmos.bank.v1beta1.MsgMultiSend\" is not permitted: invalid type") :=
  ⟨by decide, by decide,
    extractMsgTypes_unpermitted testParams testMsgsUnpermitted (by decide) (by decide),
    by decide⟩

/-! ## `extractMsgTypes`: value types, nested types and the root entries -/

/-- How `extractMsgTypes` runs on a list split around one of its messages. -/
theorem extractMsgTypes_split {CC : Type} (params : Params CC) (pre post : List Msg) (m : Msg)
    (a : EIP712AllowedMsg) (hok : (extractMsgTypes (pre ++ m :: post) params).2 = none)
    (ha : params.EIP712AllowedMsgFromMsgType m.MsgTypeURL = some a) :
    (extractMsgTypes pre params).2 = none ∧
    extractMsgTypes (pre ++ m :: post) params
      = extractMsgTypesLoop params (pre.length + 1) post
          (addMsgTypes pre.length a (extractMsgTypes pre params).1) := by
  have hpre : (extractMsgTypes pre params).2 = none :=
    extractMsgTypesLoop_initial params pre (m :: post) 0 getRootTypes hok
  have hl : m.implementsLegacyMsg = true :=
    (extractMsgTypesLoop_success_all params _ 0 getRootTypes hok m (by simp)).1
  refine ⟨hpre, ?_⟩
  unfold extractMsgTypes at hpre ⊢
  rw [extractMsgTypesLoop_append params pre (m :: post) 0 getRootTypes hpre,
    extractMsgTypesLoop_cons_ok params _ m post _ a hl ha, Nat.zero_add]

/-- After a successful run the graph has an entry `Tx` and pairwise distinct keys. -/
theorem extractMsgTypes_wf {CC : Type} (params : Params CC) (msgs : List Msg)
    (hok : (extractMsgTypes msgs params).2 = none) :
    (extractMsgTypes msgs params).1.get? "Tx" ≠ none ∧
    (extractMsgTypes msgs params).1.keys.Nodup :=
  ⟨extractMsgTypesLoop_present params msgs 0 getRootTypes "Tx" hok (by decide),
    extractMsgTypesLoop_keys_nodup params msgs 0 getRootTypes hok getRootTypes_keys_nodup⟩

/-- C5 refuted as stated: in `sharedValueMsgs` the schema of the second message declares
the nested type `Extra`, but its value type name is already present when the message is
processed, so the successful run returns a graph without an entry `Extra`. -/
theorem extractMsgTypes_nested_entries_counterexample :
    (extractMsgTypes sharedValueMsgs sharedValueParams).2 = none ∧
    sharedValueMsgs[1]? = some ⟨true, "/b.v1.MsgBar"⟩ ∧
    sharedValueParams.EIP712AllowedMsgFromMsgType "/b.v1.MsgBar"
      = some ⟨"/b.v1.MsgBar", "MsgValueShared", [⟨"y", "string"⟩], [⟨"Extra", [⟨"z", "string"⟩]⟩]⟩ ∧
    (extractMsgTypes sharedValueMsgs sharedValueParams).1.get? "Extra" = none := by
  decide

/-- C5 (amended): on success, every nested type declared by the schema of a message has an
entry under its own name in the returned graph, provided the schema's value type name had
no entry when that message was processed: none in the graph built from the earlier
messages, and it is not the message's own wrapper name `MsgI`. -/
theorem extractMsgTypes_nested_entries {CC : Type} (params : Params CC) (pre post : List Msg)
    (m : Msg) (a : EIP712AllowedMsg)
    (hok : (extractMsgTypes (pre ++ m :: post) params).2 = none)
    (ha : params.EIP712AllowedMsgFromMsgType m.MsgTypeURL = some a)
    (habs : (extractMsgTypes pre params).1.get? a.MsgValueTypeName = none)
    (hself : a.MsgValueTypeName ≠ "Msg" ++ fmtD (pre.length + 1)) :
    ∀ n ∈ a.NestedTypes,
      (extractMsgTypes (pre ++ m :: post) params).1.get? n.Name ≠ none := by
  obtain ⟨hpre, hrun⟩ := extractMsgTypes_split params pre post m a hok ha
  have hok' := hok
  rw [hrun] at hok'
  have hTx : a.MsgValueTypeName ≠ "Tx" := by
    intro hh
    exact (extractMsgTypes_wf params pre hpre).1 (hh ▸ habs)
  intro n hn
  rw [hrun]
  exact extractMsgTypesLoop_present params post _ _ _ hok'
    ((addMsgTypes_fresh _ a _ habs hTx hself).2 n hn)

/-- C5 (amended) at the repository test, second message: `MsgValueDelegate` is fresh when
the `MsgDelegate` is processed, and its nested types `Coin` and `Vote` have entries. -/
theorem extractMsgTypes_nested_entries_witness :
    (extractMsgTypes testMsgs testParams).2 = none ∧
    (extractMsgTypes [⟨true, "/cosmos.bank.v1beta1.MsgSend"⟩] testParams).1.get?
      "MsgValueDelegate" = none ∧
    "MsgValueDelegate" ≠ "Msg" ++ fmtD 2 ∧
    (extractMsgTypes testMsgs testParams).1.get? "Coin" ≠ none ∧
    (extractMsgTypes testMsgs testParams).1.get? "Vote" ≠ none := by
  have hok : (extractMsgTypes ([⟨true, "/cosmos.bank.v1beta1.MsgSend"⟩] ++
      (⟨true, "/cosmos.staking.v1beta1.MsgDelegate"⟩ : Msg) ::
      [⟨true, "/cosmos.bank.v1beta1.MsgSend"⟩]) testParams).2 = none := by decide
  have h := extractMsgTypes_nested_entries testParams [⟨true, "/cosmos.bank.v1beta1.MsgSend"⟩]
    [⟨true, "/cosmos.bank.v1beta1.MsgSend"⟩] ⟨true, "/cosmos.staking.v1beta1.MsgDelegate"⟩
    ⟨"/cosmos.staking.v1beta1.MsgDelegate", "MsgValueDelegate",
      [⟨"delegator_address", "string"⟩, ⟨"validator_address", "string"⟩, ⟨"amount", "Coin"⟩],
      [⟨"Coin", [⟨"denom", "string"⟩, ⟨"amount", "string"⟩]⟩, ⟨"Vote", [⟨"voter", "string"⟩]⟩]⟩
    hok (by decide) (by decide) (by decide)
  exact ⟨hok, by decide, by decide,
    h ⟨"Coin", [⟨"denom", "string"⟩, ⟨"amount", "string"⟩]⟩ (by decide),
    h ⟨"Vote", [⟨"voter", "string"⟩]⟩ (by decide)⟩

/-- C6: on success the entries `EIP712Domain`, `Fee` and `Coin` of the returned graph are the
fixed root definitions, whatever the schemas declare under these names, and the graph has
a single entry `Coin`. -/
theorem extractMsgTypes_root_entries {CC : Type} (params : Params CC) (msgs : List Msg)
    (hok : (extractMsgTypes msgs params).2 = none) :
    (extractMsgTypes msgs params).1.get? "EIP712Domain"
      = some [⟨"name", "string"⟩, ⟨"version", "string"⟩, ⟨"chainId", "uint256"⟩,
          ⟨"verifyingContract", "string"⟩, ⟨"salt", "string"⟩] ∧
    (extractMsgTypes msgs params).1.get? "Fee"
      = some [⟨"amount", "Coin[]"⟩, ⟨"gas", "string"⟩] ∧
    (extractMsgTypes msgs params).1.get? "Coin"
      = some [⟨"denom", "string"⟩, ⟨"amount", "string"⟩] ∧
    (extractMsgTypes msgs params).1.keys.count "Coin" = 1 := by
  have hD := extractMsgTypesLoop_preserves params msgs 0 getRootTypes "EIP712Domain"
    [⟨"name", "string"⟩, ⟨"version", "string"⟩, ⟨"chainId", "uint256"⟩,
      ⟨"verifyingContract", "string"⟩, ⟨"salt", "string"⟩] hok
    (by decide) (by decide) (fun n _ _ => Ne.symm (msgTypeName_ne_root (n + 1)).1)
  have hF := extractMsgTypesLoop_preserves params msgs 0 getRootTypes "Fee"
    [⟨"amount", "Coin[]"⟩, ⟨"gas", "string"⟩] hok
    (by decide) (by decide) (fun n _ _ => Ne.symm (msgTypeName_ne_root (n + 1)).2.1)
  have hC := extractMsgTypesLoop_preserves params msgs 0 getRootTypes "Coin"
    [⟨"denom", "string"⟩, ⟨"amount", "string"⟩] hok
    (by decide) (by decide) (fun n _ _ => Ne.symm (msgTypeName_ne_root (n + 1)).2.2)
  refine ⟨hD, hF, hC, ?_⟩
  apply Types.count_keys_eq_one _ _ (extractMsgTypes_wf params _ hok).2
  unfold extractMsgTypes
  rw [hC]; simp

/-- C6 at the repository test, where the `MsgDelegate` schema declares a nested `Coin`. -/
theorem extractMsgTypes_root_entries_witness :
    (extractMsgTypes testMsgs testParams).2 = none ∧
    (extractMsgTypes testMsgs testParams).1.get? "Coin"
      = some [⟨"denom", "string"⟩, ⟨"amount", "string"⟩] ∧
    (extractMsgTypes testMsgs testParams).1.keys.count "Coin" = 1 :=
  ⟨by decide, (extractMsgTypes_root_entries testParams testMsgs (by decide)).2.2.1,
    (extractMsgTypes_root_entries testParams testMsgs (by decide)).2.2.2⟩

/-! ## The empty message list and the domain -/

/-- C7: on the empty message list `extractMsgTypes` succeeds and returns exactly the four
root entries `EIP712Domain`, `Tx`, `Fee`, `Coin` with the root definitions; its `Tx` entry
has exactly the five base fields in order. -/
theorem extractMsgTypes_nil {CC : Type} (params : Params CC) :
    (extractMsgTypes [] params).2 = none ∧
    (extractMsgTypes [] params).1 =
      [ ("EIP712Domain",
          [ ⟨"name", "string"⟩, ⟨"version", "string"⟩, ⟨"chainId", "uint256"⟩,
            ⟨"verifyingContract", "string"⟩, ⟨"salt", "string"⟩ ]),
        ("Tx",
          [ ⟨"account_number", "string"⟩, ⟨"chain_id", "string"⟩, ⟨"fee", "Fee"⟩,
            ⟨"memo", "string"⟩, ⟨"sequence", "string"⟩ ]),
        ("Fee", [ ⟨"amount", "Coin[]"⟩, ⟨"gas", "string"⟩ ]),
        ("Coin", [ ⟨"denom", "string"⟩, ⟨"amount", "string"⟩ ]) ] ∧
    (extractMsgTypes [] params).1.keys = ["EIP712Domain", "Tx", "Fee", "Coin"] ∧
    (extractMsgTypes [] params).1.get? "Tx"
      = some [ ⟨"account_number", "string"⟩, ⟨"chain_id", "string"⟩, ⟨"fee", "Fee"⟩,
          ⟨"memo", "string"⟩, ⟨"sequence", "string"⟩ ] :=
  ⟨rfl, rfl, rfl, getRootTypes_Tx⟩

/-- C8 (what the code computes): for a 64-bit chain id `c` the fields name, version,
verifyingContract and salt are fixed constants, and the chainId field is `c` when
`c < 2^63` but `c - 2^64`, a negative number, when `2^63 ≤ c`: the conversion through
`int64` wraps. -/
theorem getTypedDataDomain_fields (c : Nat) (hc : c < 2 ^ 64) :
    (getTypedDataDomain c).Name = "Kava Cosmos" ∧
    (getTypedDataDomain c).Version = "1.0.0" ∧
    (getTypedDataDomain c).VerifyingContract = "kavaCosmos" ∧
    (getTypedDataDomain c).Salt = "0" ∧
    (c < 2 ^ 63 → (getTypedDataDomain c).ChainId = (c : Int)) ∧
    (2 ^ 63 ≤ c → (getTypedDataDomain c).ChainId = (c : Int) - 2 ^ 64) := by
  refine ⟨rfl, rfl, rfl, rfl, ?_, ?_⟩
  · intro h
    simp only [getTypedDataDomain, NewHexOrDecimal256, int64OfUint64, Nat.mod_eq_of_lt hc]
    rw [if_pos h]
  · intro h
    have h2 : ¬ c < 2 ^ 63 := by omega
    simp only [getTypedDataDomain, NewHexOrDecimal256, int64OfUint64, Nat.mod_eq_of_lt hc]
    rw [if_neg h2]

/-- C8 at the chain id `2^63`: the chainId field is `-2^63`, not the chain id. -/
theorem getTypedDataDomain_fields_witness :
    (9223372036854775808 : Nat) < 2 ^ 64 ∧
    (getTypedDataDomain 9223372036854775808).ChainId = -9223372036854775808 ∧
    (getTypedDataDomain 9223372036854775808).ChainId ≠ 9223372036854775808 := by
  have h := (getTypedDataDomain_fields 9223372036854775808 (by norm_num)).2.2.2.2.2 (by norm_num)
  refine ⟨by norm_num, ?_, ?_⟩
  · rw [h]; norm_num
  · rw [h]; norm_num

/-! ## The allow-list: validation and lookup -/

/-- The duplicate check accepts a list exactly when its type URLs are pairwise distinct
and none of them was seen before. -/
theorem validateAllowedMsgsLoop_eq_none (l : List EIP712AllowedMsg) :
    ∀ seen : List String, validateAllowedMsgsLoop l seen = none ↔
      (l.map (fun a => a.MsgTypeUrl)).Nodup ∧ ∀ a ∈ l, a.MsgTypeUrl ∉ seen := by
  induction l with
  | nil => intro seen; simp [validateAllowedMsgsLoop]
  | cons a rest ih =>
    intro seen
    by_cases h : a.MsgTypeUrl ∈ seen
    · simp [validateAllowedMsgsLoop, h]
    · simp only [validateAllowedMsgsLoop, h, if_false, ih, List.map_cons, List.nodup_cons,
        List.mem_cons, List.mem_map, not_or, not_exists, not_and]
      constructor
      · rintro ⟨hnd, hseen⟩
        refine ⟨⟨fun x hx hxa => (hseen x hx).1 hxa, hnd⟩, ?_⟩
        rintro b (hb | hb)
        · subst hb; exact h
        · exact (hseen b hb).2
      · rintro ⟨⟨hna, hnd⟩, hseen⟩
        refine ⟨hnd, fun b hb => ⟨fun hba => hna b hb hba, hseen b (Or.inr hb)⟩⟩

/-- When the duplicate check fails, the error names the first entry whose type URL was
seen before or repeats an earlier entry of the list. -/
theorem validateAllowedMsgsLoop_eq_some (l : List EIP712AllowedMsg) :
    ∀ (seen : List String) (e : String), validateAllowedMsgsLoop l seen = some e →
      ∃ pre d post, l = pre ++ d :: post ∧
        validateAllowedMsgsLoop pre seen = none ∧
        (d.MsgTypeUrl ∈ pre.map (fun a => a.MsgTypeUrl) ∨ d.MsgTypeUrl ∈ seen) ∧
        e = "duplicate eip712 allowed legacy msg type: " ++ d.MsgTypeUrl := by
  induction l with
  | nil => intro seen e h; simp [validateAllowedMsgsLoop] at h
  | cons a rest ih =>
    intro seen e h
    by_cases ha : a.MsgTypeUrl ∈ seen
    · simp only [validateAllowedMsgsLoop, ha, if_true, Option.some.injEq] at h
      exact ⟨[], a, rest, rfl, rfl, Or.inr ha, h.symm⟩
    · simp only [validateAllowedMsgsLoop, ha, if_false] at h
      obtain ⟨pre, d, post, hl, hpre, hd, he⟩ := ih _ e h
      refine ⟨a :: pre, d, post, by simp [hl], ?_, ?_, he⟩
      · simp only [validateAllowedMsgsLoop, ha, if_false]; exact hpre
      · rcases hd with hd | hd
        · exact Or.inl (by simp only [List.map_cons]; exact List.mem_cons_of_mem _ hd)
        · rcases List.mem_cons.1 hd with hd | hd
          · exact Or.inl (by simp [hd])
          · exact Or.inr hd

/-- C9: on a list of schemas `validateEIP712AllowedMsgs` returns an error exactly when two
entries share a `MsgTypeUrl` (it accepts exactly the lists with pairwise distinct type
URLs, the empty list among them, whatever the other fields hold); the error names the type
URL of the first entry that repeats the type URL of an earlier entry. -/
theorem validateEIP712AllowedMsgs_spec (l : List EIP712AllowedMsg) :
    (validateEIP712AllowedMsgs (.allowedMsgs l) = none ↔
      (l.map (fun a => a.MsgTypeUrl)).Nodup) ∧
    (validateEIP712AllowedMsgs (.allowedMsgs l) ≠ none ↔
      ∃ i j : Nat, i < j ∧ ∃ a b : EIP712AllowedMsg,
        l[i]? = some a ∧ l[j]? = some b ∧ a.MsgTypeUrl = b.MsgTypeUrl) ∧
    (∀ e, validateEIP712AllowedMsgs (.allowedMsgs l) = some e →
      ∃ pre d post, l = pre ++ d :: post ∧
        (pre.map (fun a => a.MsgTypeUrl)).Nodup ∧
        d.MsgTypeUrl ∈ pre.map (fun a => a.MsgTypeUrl) ∧
        e = "duplicate eip712 allowed legacy msg type: " ++ d.MsgTypeUrl) := by
  have hnone : validateEIP712AllowedMsgs (.allowedMsgs l) = none ↔
      (l.map (fun a => a.MsgTypeUrl)).Nodup := by
    simp [validateEIP712AllowedMsgs, validateAllowedMsgsLoop_eq_none]
  refine ⟨hnone, ?_, ?_⟩
  · rw [Ne, hnone, List.nodup_iff_getElem?_ne_getElem?]
    push_neg
    constructor
    · rintro ⟨i, j, hij, hj, heq⟩
      have hj' : j < l.length := by simpa using hj
      have hi' : i < l.length := by omega
      refine ⟨i, j, hij, l[i], l[j], List.getElem?_eq_getElem hi', List.getElem?_eq_getElem hj', ?_⟩
      simpa [List.getElem?_map, List.getElem?_eq_getElem hi', List.getElem?_eq_getElem hj']
        using heq
    · rintro ⟨i, j, hij, a, b, ha, hb, hab⟩
      have hj' : j < l.length := by
        by_contra hh
        rw [List.getElem?_eq_none (by omega)] at hb; cases hb
      refine ⟨i, j, hij, by simpa using hj', ?_⟩
      simp [List.getElem?_map, ha, hb, hab]
  · intro e he
    obtain ⟨pre, d, post, hl, hpre, hd, he'⟩ := validateAllowedMsgsLoop_eq_some l [] e he
    refine ⟨pre, d, post, hl, ((validateAllowedMsgsLoop_eq_none pre []).1 hpre).1, ?_, he'⟩
    rcases hd with hd | hd
    · exact hd
    · cases hd

/-- C9 at concrete lists: `duplicateUrlMsgs` is rejected with the type URL of its third
entry, the first to repeat an earlier one; the list of `sharedValueParams`, with a
repeated value type name but distinct type URLs, is accepted. -/
theorem validateEIP712AllowedMsgs_spec_witness :
    validateEIP712AllowedMsgs (.allowedMsgs duplicateUrlMsgs)
      = some "duplicate eip712 allowed legacy msg type: /a.v1.MsgFoo" ∧
    validateEIP712AllowedMsgs (.allowedMsgs sharedValueParams.EIP712AllowedMsgs) = none ∧
    validateEIP712AllowedMsgs (.allowedMsgs []) = none :=
  ⟨by decide,
    (validateEIP712AllowedMsgs_spec sharedValueParams.EIP712AllowedMsgs).1.2 (by decide),
    (validateEIP712AllowedMsgs_spec []).1.2 (by decide)⟩

/-- C10: `EIP712AllowedMsgFromMsgType` returns nil exactly when no entry of the allow-list
has the given type URL, and otherwise the first entry in list order with that type URL. -/
theorem EIP712AllowedMsgFromMsgType_spec {CC : Type} (p : Params CC) (u : String) :
    (p.EIP712AllowedMsgFromMsgType u = none ↔ ∀ a ∈ p.EIP712AllowedMsgs, a.MsgTypeUrl ≠ u) ∧
    (∀ s, p.EIP712AllowedMsgFromMsgType u = some s ↔
      ∃ pre post, p.EIP712AllowedMsgs = pre ++ s :: post ∧
        (∀ a ∈ pre, a.MsgTypeUrl ≠ u) ∧ s.MsgTypeUrl = u) ∧
    ((∃ a ∈ p.EIP712AllowedMsgs, a.MsgTypeUrl = u) →
      ∃ s, p.EIP712AllowedMsgFromMsgType u = some s ∧ s.MsgTypeUrl = u) := by
  refine ⟨allowedMsgFromMsgTypeLoop_eq_none _ _, fun s => allowedMsgFromMsgTypeLoop_eq_some _ _ s,
    ?_⟩
  intro h
  obtain ⟨s, hs⟩ := Option.ne_none_iff_exists'.1 ((lookup_ne_none_iff p u).2 h)
  exact ⟨s, hs, ((allowedMsgFromMsgTypeLoop_eq_some _ _ s).1 hs).choose_spec.choose_spec.2.2⟩

/-- C10 at the allow-list of the repository test: the lookup of the `MsgDelegate` type URL
returns the second schema, and an unlisted type URL gives nil. -/
theorem EIP712AllowedMsgFromMsgType_spec_witness :
    (∃ s, testParams.EIP712AllowedMsgFromMsgType "/cosmos.staking.v1beta1.MsgDelegate" = some s ∧
      s.MsgTypeUrl = "/cosmos.staking.v1beta1.MsgDelegate") ∧
    testParams.EIP712AllowedMsgFromMsgType "/cosmos.bank.v1beta1.MsgMultiSend" = none :=
  ⟨(EIP712AllowedMsgFromMsgType_spec testParams "/cosmos.staking.v1beta1.MsgDelegate").2.2
      (by decide),
    (EIP712AllowedMsgFromMsgType_spec testParams "/cosmos.bank.v1beta1.MsgMultiSend").1.2
      (by decide)⟩

/-! ## `extractMsgTypes`: success condition and minimality -/

/-- C19: `extractMsgTypes` succeeds (returns a nil error) if and only if every message
implements LegacyMsg and has its type URL in the allow-list; nothing else makes it fail. -/
theorem extractMsgTypes_success_iff {CC : Type} (params : Params CC) (msgs : List Msg) :
    (extractMsgTypes msgs params).2 = none ↔
      ∀ m ∈ msgs, m.implementsLegacyMsg = true ∧
        ∃ a ∈ params.EIP712AllowedMsgs, a.MsgTypeUrl = m.MsgTypeURL := by
  constructor
  · intro h m hm
    have := extractMsgTypesLoop_success_all params msgs 0 getRootTypes h m hm
    exact ⟨this.1, (lookup_ne_none_iff params _).1 this.2⟩
  · intro h
    apply extractMsgTypesLoop_success
    intro m hm
    exact ⟨(h m hm).1, (lookup_ne_none_iff params _).2 (h m hm).2⟩

/-- C19 at concrete lists: a list with a repeated message, against schemas with colliding
value type names, succeeds; the list with an unlisted message fails. -/
theorem extractMsgTypes_success_iff_witness :
    (extractMsgTypes (sharedValueMsgs ++ sharedValueMsgs) sharedValueParams).2 = none ∧
    (extractMsgTypes testMsgsUnpermitted testParams).2 ≠ none :=
  ⟨(extractMsgTypes_success_iff sharedValueParams (sharedValueMsgs ++ sharedValueMsgs)).2
      (by decide),
    fun h => absurd ((extractMsgTypes_success_iff testParams testMsgsUnpermitted).1 h)
      (by decide)⟩

/-- C20: on an allow-list accepted by `validateEIP712AllowedMsgs`, the lookup of the type
URL of any entry returns exactly that entry. -/
theorem EIP712AllowedMsgFromMsgType_of_valid {CC : Type} (p : Params CC)
    (hvalid : validateEIP712AllowedMsgs (.allowedMsgs p.EIP712AllowedMsgs) = none)
    (s : EIP712AllowedMsg) (hs : s ∈ p.EIP712AllowedMsgs) :
    p.EIP712AllowedMsgFromMsgType s.MsgTypeUrl = some s := by
  have hnd : (p.EIP712AllowedMsgs.map (fun a => a.MsgTypeUrl)).Nodup := by
    have := (validateAllowedMsgsLoop_eq_none p.EIP712AllowedMsgs []).1
      (by simpa [validateEIP712AllowedMsgs] using hvalid)
    exact this.1
  obtain ⟨s', hs'⟩ := Option.ne_none_iff_exists'.1
    ((lookup_ne_none_iff p s.MsgTypeUrl).2 ⟨s, hs, rfl⟩)
  obtain ⟨pre, post, hl, _, hurl⟩ := (allowedMsgFromMsgTypeLoop_eq_some _ _ s').1 hs'
  have hmem : s' ∈ p.EIP712AllowedMsgs := by rw [hl]; simp
  have : s' = s := List.inj_on_of_nodup_map hnd hmem hs hurl
  rw [hs', this]

/-- C20 at the allow-list of the repository test: looking up the type URL of the second
schema returns the second schema. -/
theorem EIP712AllowedMsgFromMsgType_of_valid_witness :
    validateEIP712AllowedMsgs (.allowedMsgs testParams.EIP712AllowedMsgs) = none ∧
    testParams.EIP712AllowedMsgFromMsgType "/cosmos.staking.v1beta1.MsgDelegate"
      = some ⟨"/cosmos.staking.v1beta1.MsgDelegate", "MsgValueDelegate",
          [⟨"delegator_address", "string"⟩, ⟨"validator_address", "string"⟩,
            ⟨"amount", "Coin"⟩],
          [⟨"Coin", [⟨"denom", "string"⟩, ⟨"amount", "string"⟩]⟩,
            ⟨"Vote", [⟨"voter", "string"⟩]⟩]⟩ :=
  ⟨by decide,
    EIP712AllowedMsgFromMsgType_of_valid testParams (by decide)
      ⟨"/cosmos.staking.v1beta1.MsgDelegate", "MsgValueDelegate",
        [⟨"delegator_address", "string"⟩, ⟨"validator_address", "string"⟩, ⟨"amount", "Coin"⟩],
        [⟨"Coin", [⟨"denom", "string"⟩, ⟨"amount", "string"⟩]⟩, ⟨"Vote", [⟨"voter", "string"⟩]⟩]⟩
      (by decide)⟩

/-- The nested-type loop only adds keys that are names of the listed nested types. -/
theorem addNestedTypes_keys (ns : List EIP712NestedMsgType) :
    ∀ (g : Types) (k : String), k ∈ (addNestedTypes ns g).keys →
      k ∈ g.keys ∨ ∃ n ∈ ns, k = n.Name := by
  induction ns with
  | nil => intro g k h; exact Or.inl (by simpa [addNestedTypes] using h)
  | cons n rest ih =>
    intro g k h
    simp only [addNestedTypes] at h
    split at h
    · rcases ih _ k h with h1 | ⟨n', hn', hk⟩
      · rcases (Types.mem_keys_set g _ _ _).1 h1 with h2 | h2
        · exact Or.inr ⟨n, List.mem_cons_self _ _, h2⟩
        · exact Or.inl h2
      · exact Or.inr ⟨n', List.mem_cons_of_mem _ hn', hk⟩
    · rcases ih _ k h with h1 | ⟨n', hn', hk⟩
      · exact Or.inl h1
      · exact Or.inr ⟨n', List.mem_cons_of_mem _ hn', hk⟩

/-- One iteration only adds `Tx`, the wrapper name, the value type name and nested type
names of the schema. -/
theorem addMsgTypes_keys (i : Nat) (a : EIP712AllowedMsg) (g : Types) (k : String)
    (h : k ∈ (addMsgTypes i a g).keys) :
    k ∈ g.keys ∨ k = "Tx" ∨ k = "Msg" ++ fmtD (i + 1) ∨ k = a.MsgValueTypeName ∨
      ∃ n ∈ a.NestedTypes, k = n.Name := by
  have hbase : ∀ w t, k ∈ ((g.set "Tx" t).set ("Msg" ++ fmtD (i + 1)) w).keys →
      k ∈ g.keys ∨ k = "Tx" ∨ k = "Msg" ++ fmtD (i + 1) := by
    intro w t hk
    rcases (Types.mem_keys_set _ _ _ _).1 hk with h1 | h1
    · exact Or.inr (Or.inr h1)
    · rcases (Types.mem_keys_set _ _ _ _).1 h1 with h2 | h2
      · exact Or.inr (Or.inl h2)
      · exact Or.inl h2
  simp only [addMsgTypes] at h
  split at h
  · rcases addNestedTypes_keys _ _ k h with h1 | h1
    · rcases (Types.mem_keys_set _ _ _ _).1 h1 with h2 | h2
      · exact Or.inr (Or.inr (Or.inr (Or.inl h2)))
      · rcases hbase _ _ h2 with h3 | h3 | h3
        · exact Or.inl h3
        · exact Or.inr (Or.inl h3)
        · exact Or.inr (Or.inr (Or.inl h3))
    · exact Or.inr (Or.inr (Or.inr (Or.inr h1)))
  · rcases hbase _ _ h with h3 | h3 | h3
    · exact Or.inl h3
    · exact Or.inr (Or.inl h3)
    · exact Or.inr (Or.inr (Or.inl h3))

/-- Every key of the graph after a successful loop was there before, or is `Tx`, a wrapper
name of the loop, or a value type or nested type name of the schema of a message. -/
theorem extractMsgTypesLoop_keys {CC : Type} (params : Params CC) (msgs : List Msg) :
    ∀ (i : Nat) (g : Types) (k : String),
      (extractMsgTypesLoop params i msgs g).2 = none →
      k ∈ (extractMsgTypesLoop params i msgs g).1.keys →
      k ∈ g.keys ∨ k = "Tx" ∨
        (∃ j, i ≤ j ∧ j < i + msgs.length ∧ k = "Msg" ++ fmtD (j + 1)) ∨
        ∃ m ∈ msgs, ∃ a, params.EIP712AllowedMsgFromMsgType m.MsgTypeURL = some a ∧
          (k = a.MsgValueTypeName ∨ ∃ n ∈ a.NestedTypes, k = n.Name) := by
  induction msgs with
  | nil => intro i g k _ hk; exact Or.inl (by simpa [extractMsgTypesLoop] using hk)
  | cons m rest ih =>
    intro i g k h hk
    obtain ⟨_, a, ha, heq⟩ := extractMsgTypesLoop_cons_success params i m rest g h
    rw [heq] at h hk
    rcases ih (i + 1) _ k h hk with h1 | h1 | ⟨j, hj1, hj2, hj3⟩ | ⟨m', hm', a', ha', hk'⟩
    · rcases addMsgTypes_keys i a g k h1 with h2 | h2 | h2 | h2 | h2
      · exact Or.inl h2
      · exact Or.inr (Or.inl h2)
      · exact Or.inr (Or.inr (Or.inl ⟨i, Nat.le_refl _, by simp, h2⟩))
      · exact Or.inr (Or.inr (Or.inr ⟨m, List.mem_cons_self _ _, a, ha, Or.inl h2⟩))
      · exact Or.inr (Or.inr (Or.inr ⟨m, List.mem_cons_self _ _, a, ha, Or.inr h2⟩))
    · exact Or.inr (Or.inl h1)
    · exact Or.inr (Or.inr (Or.inl ⟨j, by omega, by simp only [List.length_cons]; omega, hj3⟩))
    · exact Or.inr (Or.inr (Or.inr ⟨m', List.mem_cons_of_mem _ hm', a', ha', hk'⟩))

/-- C18: on success every key of the returned graph is one of the four root names, a
wrapper name `Msg1..MsgN`, the value type name of the schema of some message of the list,
or a nested type name declared by such a schema; a schema that no message refers to
contributes no entry. -/
theorem extractMsgTypes_keys_minimal {CC : Type} (params : Params CC) (msgs : List Msg)
    (hok : (extractMsgTypes msgs params).2 = none) (k : String)
    (hk : k ∈ (extractMsgTypes msgs params).1.keys) :
    k ∈ ["EIP712Domain", "Tx", "Fee", "Coin"] ∨
      (∃ K, 1 ≤ K ∧ K ≤ msgs.length ∧ k = "Msg" ++ fmtD K) ∨
      ∃ m ∈ msgs, ∃ a, params.EIP712AllowedMsgFromMsgType m.MsgTypeURL = some a ∧
        (k = a.MsgValueTypeName ∨ ∃ n ∈ a.NestedTypes, k = n.Name) := by
  rcases extractMsgTypesLoop_keys params msgs 0 getRootTypes k hok hk with
    h | h | ⟨j, _, hj2, hj3⟩ | h
  · exact Or.inl h
  · exact Or.inl (by simp [h])
  · exact Or.inr (Or.inl ⟨j + 1, by omega, by omega, hj3⟩)
  · exact Or.inr (Or.inr h)

/-- C18 at the repository test: the graph has the four root entries, three wrappers, the
two value types and the nested type `Vote`, and nothing else. -/
theorem extractMsgTypes_keys_minimal_witness :
    (extractMsgTypes testMsgs testParams).2 = none ∧
    (extractMsgTypes testMsgs testParams).1.keys
      = ["EIP712Domain", "Tx", "Fee", "Coin", "Msg1", "MsgValueSend", "Msg2",
          "MsgValueDelegate", "Vote", "Msg3"] ∧
    ("Vote" ∈ ["EIP712Domain", "Tx", "Fee", "Coin"] ∨
      (∃ K, 1 ≤ K ∧ K ≤ testMsgs.length ∧ "Vote" = "Msg" ++ fmtD K) ∨
      ∃ m ∈ testMsgs, ∃ a, testParams.EIP712AllowedMsgFromMsgType m.MsgTypeURL = some a ∧
        ("Vote" = a.MsgValueTypeName ∨ ∃ n ∈ a.NestedTypes, "Vote" = n.Name)) :=
  ⟨by decide, by decide,
    extractMsgTypes_keys_minimal testParams testMsgs (by decide) "Vote" (by decide)⟩

/-! ## Payload maps -/

theorem GoMap.get?_set_eq {V : Type} (m : List (String × V)) (k : String) (v : V) :
    GoMap.get? (GoMap.set m k v) k = some v := by
  induction m with
  | nil => simp [GoMap.set, GoMap.get?]
  | cons e rest ih =>
    obtain ⟨k', v'⟩ := e
    by_cases h : k' = k
    · simp [GoMap.set, GoMap.get?, h]
    · simp [GoMap.set, GoMap.get?, h, ih]

theorem GoMap.get?_set_of_ne {V : Type} (m : List (String × V)) {k k' : String} (v : V)
    (hne : k ≠ k') : GoMap.get? (GoMap.set m k v) k' = GoMap.get? m k' := by
  induction m with
  | nil => simp [GoMap.set, GoMap.get?, hne]
  | cons e rest ih =>
    obtain ⟨k0, v0⟩ := e
    by_cases h : k0 = k
    · subst h; simp [GoMap.set, GoMap.get?, hne]
    · by_cases h2 : k0 = k'
      · subst h2
        simp [GoMap.set, GoMap.get?, h]
      · simp [GoMap.set, GoMap.get?, h, h2, ih]

theorem GoMap.get?_delete_eq {V : Type} (m : List (String × V)) (k : String) :
    GoMap.get? (GoMap.delete m k) k = none := by
  induction m with
  | nil => simp [GoMap.delete, GoMap.get?]
  | cons e rest ih =>
    obtain ⟨k', v'⟩ := e
    by_cases h : k' = k
    · simp [GoMap.delete, h, ih]
    · simp [GoMap.delete, GoMap.get?, h, ih]

theorem GoMap.get?_delete_of_ne {V : Type} (m : List (String × V)) {k k' : String}
    (hne : k ≠ k') : GoMap.get? (GoMap.delete m k) k' = GoMap.get? m k' := by
  induction m with
  | nil => simp [GoMap.delete, GoMap.get?]
  | cons e rest ih =>
    obtain ⟨k0, v0⟩ := e
    by_cases h : k0 = k
    · subst h; simp [GoMap.delete, GoMap.get?, hne, ih]
    · by_cases h2 : k0 = k'
      · subst h2
        simp [GoMap.delete, GoMap.get?, h]
      · simp [GoMap.delete, GoMap.get?, h, h2, ih]

/-! ## `WrapTxToTypedData` -/

/-- The type assertion on `txData["fee"]` succeeds exactly when the payload is a non-nil
map with a key `fee` holding a JSON object. -/
theorem feeInfoOf_eq_some (txData : Option JSONObject) (feeInfo : JSONObject) :
    feeInfoOf txData = some feeInfo ↔
      ∃ o, txData = some o ∧ GoMap.get? o "fee" = some (.object feeInfo) := by
  cases txData with
  | none => simp [feeInfoOf]
  | some o =>
    simp only [feeInfoOf, Option.some.injEq, exists_eq_left']
    split
    · rename_i f hf
      rw [hf]
      constructor
      · intro h; injection h with h; rw [h]
      · intro h; injection h with h; injection h with h; rw [h]
    · rename_i hno
      constructor
      · intro h; cases h
      · intro h; exact absurd h (hno feeInfo)

/-- The fee object of the payload does not exist exactly when the assertion fails. -/
theorem feeInfoOf_eq_none (txData : Option JSONObject) :
    feeInfoOf txData = none ↔
      ¬ ∃ o feeInfo, txData = some o ∧ GoMap.get? o "fee" = some (.object feeInfo) := by
  constructor
  · rintro h ⟨o, feeInfo, ho, hf⟩
    have := (feeInfoOf_eq_some txData feeInfo).2 ⟨o, ho, hf⟩
    rw [h] at this; cases this
  · intro h
    cases hf : feeInfoOf txData with
    | none => rfl
    | some feeInfo =>
      obtain ⟨o, ho, hfee⟩ := (feeInfoOf_eq_some txData feeInfo).1 hf
      exact absurd ⟨o, feeInfo, ho, hfee⟩ h

/-- How `WrapTxToTypedData` runs once the payload is decoded and `extractMsgTypes` has
succeeded. -/
theorem WrapTxToTypedData_run {CC : Type} (decode : Bytes → Option JSONValue)
    (addrString : Bytes → String) (chainID : Nat) (msgs : List Msg) (data : Bytes)
    (feeDelegation : Option FeeDelegationOptions) (params : Params CC)
    (txData : Option JSONObject) (hdec : unmarshalMap decode data = some txData)
    (hok : (extractMsgTypes msgs params).2 = none) :
    WrapTxToTypedData decode addrString chainID msgs data feeDelegation params =
      match feeDelegation with
      | some fd =>
        match feeInfoOf txData with
        | none => .error ⟨.ErrInvalidType, "cannot parse fee from tx data"⟩
        | some feeInfo =>
          .ok { Types := (extractMsgTypes msgs params).1.set "Fee"
                  [⟨"feePayer", "string"⟩, ⟨"amount", "Coin[]"⟩, ⟨"gas", "string"⟩]
                PrimaryType := "Tx"
                Domain := getTypedDataDomain chainID
                Message := txData.map fun o => GoMap.set o "fee"
                  (.object (GoMap.set feeInfo "feePayer" (.string (addrString fd.FeePayer)))) }
      | none =>
        .ok { Types := (extractMsgTypes msgs params).1, PrimaryType := "Tx"
              Domain := getTypedDataDomain chainID, Message := txData } := by
  rcases hext : extractMsgTypes msgs params with ⟨g, e⟩
  simp only [hext] at hok
  subst hok
  simp only [WrapTxToTypedData, hdec, hext]

/-- A successful `WrapTxToTypedData` has decoded the payload and extracted the types. -/
theorem WrapTxToTypedData_ok {CC : Type} (decode : Bytes → Option JSONValue)
    (addrString : Bytes → String) (chainID : Nat) (msgs : List Msg) (data : Bytes)
    (feeDelegation : Option FeeDelegationOptions) (params : Params CC) (td : TypedData)
    (h : WrapTxToTypedData decode addrString chainID msgs data feeDelegation params = .ok td) :
    (∃ txData, unmarshalMap decode data = some txData) ∧
      (extractMsgTypes msgs params).2 = none := by
  cases hdec : unmarshalMap decode data with
  | none => simp [WrapTxToTypedData, hdec] at h
  | some txData =>
    refine ⟨⟨txData, rfl⟩, ?_⟩
    rcases hext : extractMsgTypes msgs params with ⟨g, e⟩
    cases e with
    | none => rfl
    | some err => simp [WrapTxToTypedData, hdec, hext] at h

/-- C11: when `WrapTxToTypedData` succeeds with a fee delegation, the `Fee` type of the
envelope is `[(feePayer, string), (amount, Coin[]), (gas, string)]`, every other type entry
is that of `extractMsgTypes(msgs, params)`, the fee object of the message payload holds
`feePayer` set to the delegate's address string, and every other key of the fee object
and of the payload is as in the decoded input. -/
theorem WrapTxToTypedData_fee_delegation {CC : Type} (decode : Bytes → Option JSONValue)
    (addrString : Bytes → String) (chainID : Nat) (msgs : List Msg) (data : Bytes)
    (fd : FeeDelegationOptions) (params : Params CC) (td : TypedData)
    (h : WrapTxToTypedData decode addrString chainID msgs data (some fd) params = .ok td) :
    td.Types.get? "Fee"
      = some [⟨"feePayer", "string"⟩, ⟨"amount", "Coin[]"⟩, ⟨"gas", "string"⟩] ∧
    (∀ k, k ≠ "Fee" → td.Types.get? k = (extractMsgTypes msgs params).1.get? k) ∧
    td.PrimaryType = "Tx" ∧ td.Domain = getTypedDataDomain chainID ∧
    ∃ txData feeInfo message feeInfo',
      unmarshalMap decode data = some (some txData) ∧
      GoMap.get? txData "fee" = some (.object feeInfo) ∧
      td.Message = some message ∧
      GoMap.get? message "fee" = some (.object feeInfo') ∧
      GoMap.get? feeInfo' "feePayer" = some (.string (addrString fd.FeePayer)) ∧
      (∀ k, k ≠ "feePayer" → GoMap.get? feeInfo' k = GoMap.get? feeInfo k) ∧
      (∀ k, k ≠ "fee" → GoMap.get? message k = GoMap.get? txData k) := by
  obtain ⟨⟨txData0, hdec⟩, hok⟩ :=
    WrapTxToTypedData_ok decode addrString chainID msgs data (some fd) params td h
  rw [WrapTxToTypedData_run decode addrString chainID msgs data (some fd) params txData0 hdec
    hok] at h
  simp only at h
  cases hfee : feeInfoOf txData0 with
  | none => simp [hfee] at h
  | some feeInfo =>
    simp only [hfee, Except.ok.injEq] at h
    obtain ⟨o, ho, hget⟩ := (feeInfoOf_eq_some txData0 feeInfo).1 hfee
    subst ho
    subst h
    refine ⟨Types.get?_set_self _ _ _, fun k hk => Types.get?_set_ne _ _ (Ne.symm hk), rfl, rfl,
      o, feeInfo, _, _, hdec, hget, rfl, GoMap.get?_set_eq _ _ _, GoMap.get?_set_eq _ _ _,
      fun k hk => GoMap.get?_set_of_ne _ _ (Ne.symm hk),
      fun k hk => GoMap.get?_set_of_ne _ _ (Ne.symm hk)⟩

/-- C11 on a sample payload with a fee object: the run succeeds and the envelope has the
three-field `Fee` type. -/
theorem WrapTxToTypedData_fee_delegation_witness :
    ∃ td, WrapTxToTypedData sampleDecode sampleAddrString 9000 testMsgs [1] (some ⟨[9]⟩)
        testParams = .ok td ∧
      td.Types.get? "Fee"
        = some [⟨"feePayer", "string"⟩, ⟨"amount", "Coin[]"⟩, ⟨"gas", "string"⟩] ∧
      td.Message = some
        [ ("account_number", .string "7"),
          ("fee", .object [("amount", .array []), ("gas", .string "200000"),
            ("feePayer", .string "kava1feepayer")]),
          ("memo", .string "") ] :=
  ⟨_, rfl,
    (WrapTxToTypedData_fee_delegation sampleDecode sampleAddrString 9000 testMsgs [1] ⟨[9]⟩
      testParams _ rfl).1, rfl⟩

/-- C12: for a decodable payload and a list of messages that all implement LegacyMsg and
are in the allow-list, `WrapTxToTypedData` with a fee delegation fails with
`cannot parse fee from tx data` if and only if the decoded payload has no key `fee`
holding a JSON object, and succeeds otherwise; without a fee delegation it succeeds
whatever the payload holds under `fee`. -/
theorem WrapTxToTypedData_fee_error_iff {CC : Type} (decode : Bytes → Option JSONValue)
    (addrString : Bytes → String) (chainID : Nat) (msgs : List Msg) (data : Bytes)
    (fd : FeeDelegationOptions) (params : Params CC) (txData : Option JSONObject)
    (hdec : unmarshalMap decode data = some txData)
    (hperm : ∀ m ∈ msgs, m.implementsLegacyMsg = true ∧
      ∃ a ∈ params.EIP712AllowedMsgs, a.MsgTypeUrl = m.MsgTypeURL) :
    (WrapTxToTypedData decode addrString chainID msgs data (some fd) params
        = .error ⟨.ErrInvalidType, "cannot parse fee from tx data"⟩ ↔
      ¬ ∃ o feeInfo, txData = some o ∧ GoMap.get? o "fee" = some (.object feeInfo)) ∧
    ((∃ td, WrapTxToTypedData decode addrString chainID msgs data (some fd) params = .ok td) ↔
      ∃ o feeInfo, txData = some o ∧ GoMap.get? o "fee" = some (.object feeInfo)) ∧
    ∃ td, WrapTxToTypedData decode addrString chainID msgs data none params = .ok td := by
  have hok : (extractMsgTypes msgs params).2 = none := by
    apply extractMsgTypesLoop_success
    intro m hm
    exact ⟨(hperm m hm).1, (lookup_ne_none_iff params _).2 (hperm m hm).2⟩
  rw [WrapTxToTypedData_run decode addrString chainID msgs data (some fd) params txData hdec hok,
    WrapTxToTypedData_run decode addrString chainID msgs data none params txData hdec hok]
  refine ⟨?_, ?_, ⟨_, rfl⟩⟩
  · rw [← feeInfoOf_eq_none]
    cases hfee : feeInfoOf txData with
    | none => simp
    | some feeInfo => simp
  · cases hfee : feeInfoOf txData with
    | none =>
      have hno := (feeInfoOf_eq_none txData).1 hfee
      constructor
      · rintro ⟨td, htd⟩; cases htd
      · intro hex; exact absurd hex hno
    | some feeInfo =>
      obtain ⟨o, ho, hget⟩ := (feeInfoOf_eq_some txData feeInfo).1 hfee
      simp only [Except.ok.injEq, exists_eq', true_iff]
      exact ⟨o, feeInfo, ho, hget⟩

/-- C12 on sample payloads: with a fee delegation, the payload whose `fee` is a string
fails with the fee error; without one, the same payload is wrapped. -/
theorem WrapTxToTypedData_fee_error_iff_witness :
    WrapTxToTypedData sampleDecode sampleAddrString 9000 testMsgs [2] (some ⟨[9]⟩) testParams
      = .error ⟨.ErrInvalidType, "cannot parse fee from tx data"⟩ ∧
    ∃ td, WrapTxToTypedData sampleDecode sampleAddrString 9000 testMsgs [2] none testParams
      = .ok td := by
  have h := WrapTxToTypedData_fee_error_iff sampleDecode sampleAddrString 9000 testMsgs [2]
    ⟨[9]⟩ testParams (some [("fee", .string "none"), ("memo", .string "")]) rfl (by decide)
  refine ⟨h.1.2 ?_, h.2.2⟩
  rintro ⟨o, feeInfo, ho, hget⟩
  injection ho with ho
  subst ho
  simp [GoMap.get?] at hget

/-- C17: when `WrapTxToTypedData` succeeds without a fee delegation, the envelope has
primary type `Tx`, the domain `getTypedDataDomain(chainID)`, the types returned by
`extractMsgTypes(msgs, params)` (with the two-field `Fee` of the root types) and, as
message, the decoded payload itself. -/
theorem WrapTxToTypedData_no_delegation {CC : Type} (decode : Bytes → Option JSONValue)
    (addrString : Bytes → String) (chainID : Nat) (msgs : List Msg) (data : Bytes)
    (params : Params CC) (td : TypedData)
    (h : WrapTxToTypedData decode addrString chainID msgs data none params = .ok td) :
    td.PrimaryType = "Tx" ∧ td.Domain = getTypedDataDomain chainID ∧
    (extractMsgTypes msgs params).2 = none ∧
    td.Types = (extractMsgTypes msgs params).1 ∧
    td.Types.get? "Fee" = some [⟨"amount", "Coin[]"⟩, ⟨"gas", "string"⟩] ∧
    unmarshalMap decode data = some td.Message := by
  obtain ⟨⟨txData0, hdec⟩, hok⟩ :=
    WrapTxToTypedData_ok decode addrString chainID msgs data none params td h
  rw [WrapTxToTypedData_run decode addrString chainID msgs data none params txData0 hdec hok] at h
  simp only [Except.ok.injEq] at h
  subst h
  refine ⟨rfl, rfl, hok, rfl, ?_, hdec⟩
  exact extractMsgTypesLoop_preserves params msgs 0 getRootTypes "Fee"
    [⟨"amount", "Coin[]"⟩, ⟨"gas", "string"⟩] hok
    (by decide) (by decide) (fun n _ _ => Ne.symm (msgTypeName_ne_root (n + 1)).2.1)

/-- C17 on a sample payload: the message of the envelope is the decoded payload. -/
theorem WrapTxToTypedData_no_delegation_witness :
    ∃ td, WrapTxToTypedData sampleDecode sampleAddrString 9000 testMsgs [1] none testParams
        = .ok td ∧
      td.PrimaryType = "Tx" ∧ td.Domain.ChainId = 9000 ∧
      td.Types.get? "Fee" = some [⟨"amount", "Coin[]"⟩, ⟨"gas", "string"⟩] ∧
      td.Message = some
        [ ("account_number", .string "7"),
          ("fee", .object [("amount", .array []), ("gas", .string "200000")]),
          ("memo", .string "") ] :=
  ⟨_, rfl,
    (WrapTxToTypedData_no_delegation sampleDecode sampleAddrString 9000 testMsgs [1]
      testParams _ rfl).1, rfl,
    (WrapTxToTypedData_no_delegation sampleDecode sampleAddrString 9000 testMsgs [1]
      testParams _ rfl).2.2.2.2.1, rfl⟩

/-! ## `ComputeTypedDataHash` -/

/-- C13: when both struct hashes succeed, `ComputeTypedDataHash` returns Keccak256 of the
bytes `0x19`, `0x01`, the domain separator and the struct hash of the primary type, in
this order; when the domain hash fails it returns that error (wrapped) whatever the
primary hash does, and when only the primary hash fails it returns that error. -/
theorem ComputeTypedDataHash_spec {E : Type}
    (HashStruct : TypedData → String → Option JSONObject → Except E Bytes)
    (domainMap : TypedDataDomain → JSONObject) (Keccak256 : Bytes → Bytes)
    (typedData : TypedData) :
    (∀ d h, HashStruct typedData "EIP712Domain" (some (domainMap typedData.Domain)) = .ok d →
      HashStruct typedData typedData.PrimaryType typedData.Message = .ok h →
      ComputeTypedDataHash HashStruct domainMap Keccak256 typedData
        = .ok (Keccak256 (0x19 :: 0x01 :: (d ++ h)))) ∧
    (∀ e, HashStruct typedData "EIP712Domain" (some (domainMap typedData.Domain)) = .error e →
      ComputeTypedDataHash HashStruct domainMap Keccak256 typedData
        = .error ⟨e, "failed to pack and hash typedData EIP712Domain"⟩) ∧
    (∀ d e, HashStruct typedData "EIP712Domain" (some (domainMap typedData.Domain)) = .ok d →
      HashStruct typedData typedData.PrimaryType typedData.Message = .error e →
      ComputeTypedDataHash HashStruct domainMap Keccak256 typedData
        = .error ⟨e, "failed to pack and hash typedData primary type"⟩) := by
  refine ⟨?_, ?_, ?_⟩
  · intro d h hd hh
    simp [ComputeTypedDataHash, hd, hh]
  · intro e he
    simp [ComputeTypedDataHash, he]
  · intro d e hd he
    simp [ComputeTypedDataHash, hd, he]

/-- C13 with a toy struct hash and the identity in place of Keccak256: the hashed bytes
are `19 01`, then the domain separator `AA BB`, then the primary hash `CC`. -/
theorem ComputeTypedDataHash_spec_witness :
    ComputeTypedDataHash sampleHashStruct (fun _ => []) (fun bz => bz) sampleTypedData
      = .ok [0x19, 0x01, 0xAA, 0xBB, 0xCC] :=
  (ComputeTypedDataHash_spec sampleHashStruct (fun _ => []) (fun bz => bz) sampleTypedData).1
    [0xAA, 0xBB] [0xCC] rfl rfl

/-! ## `ConstructUntypedEIP712Data` -/

theorem readDecimal_fmtD (n : Nat) : readDecimal (fmtD n).data = n :=
  readDecimal_toDigitsCore (n + 1) n (Nat.lt_succ_self n)

theorem msgAttrName_inj {a b : Nat} (h : "msg" ++ fmtD a = "msg" ++ fmtD b) : a = b := by
  apply fmtD_injective
  have := congrArg String.data h
  simp only [String.data_append] at this
  exact String.ext (List.append_cancel_left this)

/-- No per-message key `msgK` is the key `msgs`. -/
theorem msgAttrName_ne_msgs (K : Nat) : "msg" ++ fmtD K ≠ "msgs" := by
  intro h
  have h1 := congrArg String.data h
  simp only [String.data_append] at h1
  have h2 : (fmtD K).data = ['s'] := List.append_cancel_left h1
  have h3 := readDecimal_fmtD K
  rw [h2] at h3
  have h4 : K = 67 := by rw [← h3]; rfl
  subst h4
  revert h2
  decide

/-- The message loop of the sign document builder on a non-nil map and messages that all
implement LegacyMsg: it does not panic, stores each message's sign bytes under its key and
leaves every other key as it was. -/
theorem addMsgFields_ok (msgs : List SignableMsg) :
    ∀ (i : Nat) (o : JSONObject), (∀ m ∈ msgs, m.implementsLegacyMsg = true) →
      ∃ obj, addMsgFields i msgs (some o) = .ok (some obj) ∧
        (∀ n m, msgs[n]? = some m →
          GoMap.get? obj ("msg" ++ fmtD (i + n + 1)) = some (.rawMessage m.GetSignBytes)) ∧
        (∀ k, (∀ n, n < msgs.length → k ≠ "msg" ++ fmtD (i + n + 1)) →
          GoMap.get? obj k = GoMap.get? o k) := by
  induction msgs with
  | nil =>
    intro i o _
    exact ⟨o, rfl, fun n m h => by simp at h, fun k _ => rfl⟩
  | cons m0 rest ih =>
    intro i o hleg
    have hl : m0.implementsLegacyMsg = true := hleg m0 (List.mem_cons_self _ _)
    obtain ⟨obj, hrun, hmsg, hother⟩ := ih (i + 1)
      (GoMap.set o ("msg" ++ fmtD (i + 1)) (.rawMessage m0.GetSignBytes))
      (fun x hx => hleg x (List.mem_cons_of_mem _ hx))
    refine ⟨obj, by simp [addMsgFields, hl, hrun], ?_, ?_⟩
    · intro n m hn
      cases n with
      | zero =>
        simp at hn; subst hn
        rw [hother ("msg" ++ fmtD (i + 0 + 1))]
        · exact GoMap.get?_set_eq _ _ _
        · intro n _ hh
          have := msgAttrName_inj hh
          omega
      | succ n' =>
        simp at hn
        rw [show i + (n' + 1) + 1 = i + 1 + n' + 1 by omega]
        exact hmsg n' m hn
    · intro k hk
      rw [hother k]
      · apply GoMap.get?_set_of_ne
        exact Ne.symm (hk 0 (by simp))
      · intro n hn
        rw [show i + 1 + n + 1 = i + (n + 1) + 1 by omega]
        exact hk (n + 1) (by simp only [List.length_cons]; omega)

/-- The map before serialisation: when the legacy sign document decodes to a JSON object
and every message implements LegacyMsg, the map that `ConstructUntypedEIP712Data` hands to
`json.Marshal` has no key `msgs`, holds under each key `msgI` (for `1 ≤ I ≤ N`, in input
order) the sign bytes of message `I` as a raw message, and has every other key of the sign
document with its value; when the sign document has no key `msgK`, its keys of that form
are exactly `msg1..msgN`. -/
theorem untypedEIP712Map_fields {Fee : Type}
    (StdSignBytes : String → Nat → Nat → Nat → Fee → List SignableMsg → String → Bytes)
    (decode : Bytes → Option JSONValue) (Marshal : Option JSONObject → Option Bytes)
    (MustSortJSON : Bytes → Option Bytes)
    (chainID : String) (accnum sequence timeout : Nat) (fee : Fee) (msgs : List SignableMsg)
    (memo : String) (base : JSONObject)
    (hleg : ∀ m ∈ msgs, m.implementsLegacyMsg = true)
    (hbase : unmarshalMap decode (StdSignBytes chainID accnum sequence timeout fee msgs memo)
      = some (some base)) :
    ∃ obj,
      untypedEIP712Map decode (StdSignBytes chainID accnum sequence timeout fee msgs memo) msgs
        = .ok (some obj) ∧
      ConstructUntypedEIP712Data StdSignBytes decode Marshal MustSortJSON chainID accnum
          sequence timeout fee msgs memo
        = (match Marshal (some obj) with
            | none => .error .marshal
            | some bz =>
              match MustSortJSON bz with
              | none => .error .sortJSON
              | some sorted => .ok sorted) ∧
      GoMap.get? obj "msgs" = none ∧
      (∀ i m, msgs[i]? = some m →
        GoMap.get? obj ("msg" ++ fmtD (i + 1)) = some (.rawMessage m.GetSignBytes)) ∧
      (∀ k, k ≠ "msgs" → (∀ i, i < msgs.length → k ≠ "msg" ++ fmtD (i + 1)) →
        GoMap.get? obj k = GoMap.get? base k) ∧
      ((∀ K, GoMap.get? base ("msg" ++ fmtD K) = none) →
        ∀ K, GoMap.get? obj ("msg" ++ fmtD K) ≠ none ↔ (1 ≤ K ∧ K ≤ msgs.length)) := by
  obtain ⟨obj, hrun, hmsg, hother⟩ := addMsgFields_ok msgs 0 (GoMap.delete base "msgs") hleg
  have hmap : untypedEIP712Map decode
      (StdSignBytes chainID accnum sequence timeout fee msgs memo) msgs = .ok (some obj) := by
    simp [untypedEIP712Map, hbase, hrun]
  have hmsg' : ∀ i m, msgs[i]? = some m →
      GoMap.get? obj ("msg" ++ fmtD (i + 1)) = some (.rawMessage m.GetSignBytes) := by
    intro i m hm
    have := hmsg i m hm
    rwa [Nat.zero_add] at this
  have hother' : ∀ k, k ≠ "msgs" → (∀ i, i < msgs.length → k ≠ "msg" ++ fmtD (i + 1)) →
      GoMap.get? obj k = GoMap.get? base k := by
    intro k hk hki
    rw [hother k (fun n hn => by rw [Nat.zero_add]; exact hki n hn)]
    exact GoMap.get?_delete_of_ne _ (Ne.symm hk)
  refine ⟨obj, hmap, ?_, ?_, hmsg', hother', ?_⟩
  · simp only [ConstructUntypedEIP712Data, hmap]
  · rw [hother "msgs" (fun n _ => Ne.symm (msgAttrName_ne_msgs _))]
    exact GoMap.get?_delete_eq _ _
  · intro hnone K
    constructor
    · intro hK
      by_contra hrange
      apply hK
      rw [hother' _ (msgAttrName_ne_msgs K) ?_]
      · exact hnone K
      · intro i hi hh
        have := msgAttrName_inj hh
        omega
    · rintro ⟨hK1, hK2⟩
      have hlt : K - 1 < msgs.length := by omega
      have := hmsg' (K - 1) msgs[K - 1] (List.getElem?_eq_getElem hlt)
      rw [show K - 1 + 1 = K by omega] at this
      rw [this]; simp

/-- The map before serialisation on a sample sign document with two messages: it has the
keys `msg1` and `msg2` with the sign bytes, keeps `chain_id` and has no `msgs`. -/
theorem untypedEIP712Map_fields_example :
    ∃ obj, untypedEIP712Map sampleSignDecode [7] sampleSignMsgs = .ok (some obj) ∧
      GoMap.get? obj "msgs" = none ∧
      GoMap.get? obj "msg1" = some (.rawMessage [10]) ∧
      GoMap.get? obj "msg2" = some (.rawMessage [20]) ∧
      GoMap.get? obj "chain_id" = some (.string "kava_2222-10") := by
  obtain ⟨obj, hmap, _, hmsgs, hmsg, hother, _⟩ :=
    untypedEIP712Map_fields sampleStdSignBytes sampleSignDecode
      (fun _ => some []) (fun bz => some bz) "kava_2222-10" 0 1 0 () sampleSignMsgs ""
      [ ("account_number", .string "0"), ("chain_id", .string "kava_2222-10"),
        ("msgs", .array []), ("sequence", .string "1") ]
      (by decide) rfl
  refine ⟨obj, hmap, hmsgs, hmsg 0 ⟨true, [10]⟩ rfl, hmsg 1 ⟨true, [20]⟩ rfl, ?_⟩
  rw [hother "chain_id" (by decide) ?_]
  · rfl
  · intro i hi
    have hi2 : i < 2 := hi
    interval_cases i <;> decide

/-- A value that is no raw message reads back as itself. -/
theorem resolveValue_of_not_raw (decode : Bytes → Option JSONValue) (v : JSONValue)
    (h : ∀ raw, v ≠ .rawMessage raw) : resolveValue decode v = some v := by
  cases v with
  | rawMessage raw => exact absurd rfl (h raw)
  | _ => rfl

/-- Reading a key of the map after `json.Marshal`: absent when it was absent, and otherwise
what `resolveValue` gives for the value the map held. -/
theorem resolveRaw_get? (decode : Bytes → Option JSONValue) (m : JSONObject) :
    ∀ vals, resolveRaw decode m = some vals → ∀ k,
      (GoMap.get? m k = none ∧ GoMap.get? vals k = none) ∨
      ∃ v v', GoMap.get? m k = some v ∧ resolveValue decode v = some v' ∧
        GoMap.get? vals k = some v' := by
  induction m with
  | nil =>
    intro vals h k
    simp only [resolveRaw, Option.some.injEq] at h
    subst h
    exact Or.inl ⟨rfl, rfl⟩
  | cons e rest ih =>
    obtain ⟨k0, v0⟩ := e
    intro vals h k
    simp only [resolveRaw] at h
    cases hv : resolveValue decode v0 with
    | none => simp [hv] at h
    | some v0' =>
      cases hr : resolveRaw decode rest with
      | none => simp [hv, hr] at h
      | some rest' =>
        simp only [hv, hr, Option.some.injEq] at h
        subst h
        by_cases hk : k0 = k
        · exact Or.inr ⟨v0, v0', by simp [GoMap.get?, hk], hv, by simp [GoMap.get?, hk]⟩
        · rcases ih rest' hr k with ⟨h1, h2⟩ | ⟨v, v', h1, h2, h3⟩
          · exact Or.inl ⟨by simp [GoMap.get?, hk, h1], by simp [GoMap.get?, hk, h2]⟩
          · exact Or.inr ⟨v, v', by simp [GoMap.get?, hk, h1], h2,
              by simp [GoMap.get?, hk, h3]⟩

/-- C14 (amended): when the legacy sign document decodes to a JSON object and every
message implements LegacyMsg, `ConstructUntypedEIP712Data` does not panic before the
serialisation and returns `sdk.MustSortJSON(json.Marshal(map))`. Given that `json.Marshal`
writes the map so that it reads back, key by key, with each raw message replaced by the
value it decodes to, and that `sdk.MustSortJSON` keeps the decoded document, the JSON
object that
the returned bytes decode to has no key `msgs`, holds under each key `msgI` (for
`1 ≤ I ≤ N`, in input order) the value that the sign bytes of message `I` decode to, and
has every other key of the sign document with its value; when the sign document has no
key `msgK`, its keys of that form are exactly `msg1..msgN`. -/
theorem ConstructUntypedEIP712Data_output {Fee : Type}
    (StdSignBytes : String → Nat → Nat → Nat → Fee → List SignableMsg → String → Bytes)
    (decode : Bytes → Option JSONValue) (Marshal : Option JSONObject → Option Bytes)
    (MustSortJSON : Bytes → Option Bytes)
    (chainID : String) (accnum sequence timeout : Nat) (fee : Fee) (msgs : List SignableMsg)
    (memo : String) (base : JSONObject)
    (hleg : ∀ m ∈ msgs, m.implementsLegacyMsg = true)
    (hbase : unmarshalMap decode (StdSignBytes chainID accnum sequence timeout fee msgs memo)
      = some (some base))
    (hvalues : ∀ k raw, GoMap.get? base k ≠ some (.rawMessage raw))
    (hMarshal : ∀ m bz,
      untypedEIP712Map decode (StdSignBytes chainID accnum sequence timeout fee msgs memo) msgs
        = .ok (some m) →
      Marshal (some m) = some bz →
      ∃ vals obj, resolveRaw decode m = some vals ∧ decode bz = some (.object obj) ∧
        ∀ k, GoMap.get? obj k = GoMap.get? vals k)
    (hSort : ∀ bz sorted, MustSortJSON bz = some sorted → decode sorted = decode bz) :
    (∃ m,
      untypedEIP712Map decode (StdSignBytes chainID accnum sequence timeout fee msgs memo) msgs
        = .ok (some m) ∧
      ConstructUntypedEIP712Data StdSignBytes decode Marshal MustSortJSON chainID accnum
          sequence timeout fee msgs memo
        = (match Marshal (some m) with
            | none => .error .marshal
            | some bz =>
              match MustSortJSON bz with
              | none => .error .sortJSON
              | some sorted => .ok sorted)) ∧
    ∀ out, ConstructUntypedEIP712Data StdSignBytes decode Marshal MustSortJSON chainID accnum
        sequence timeout fee msgs memo = .ok out →
      ∃ obj, decode out = some (.object obj) ∧
        GoMap.get? obj "msgs" = none ∧
        (∀ i m, msgs[i]? = some m →
          ∃ v, decode m.GetSignBytes = some v ∧
            GoMap.get? obj ("msg" ++ fmtD (i + 1)) = some v) ∧
        (∀ k, k ≠ "msgs" → (∀ i, i < msgs.length → k ≠ "msg" ++ fmtD (i + 1)) →
          GoMap.get? obj k = GoMap.get? base k) ∧
        ((∀ K, GoMap.get? base ("msg" ++ fmtD K) = none) →
          ∀ K, GoMap.get? obj ("msg" ++ fmtD K) ≠ none ↔ (1 ≤ K ∧ K ≤ msgs.length)) := by
  obtain ⟨m, hmap, hrun, hmsgs, hmsg, hother, _⟩ :=
    untypedEIP712Map_fields StdSignBytes decode Marshal MustSortJSON chainID accnum sequence
      timeout fee msgs memo base hleg hbase
  refine ⟨⟨m, hmap, hrun⟩, ?_⟩
  intro out hout
  rw [hrun] at hout
  cases hbz : Marshal (some m) with
  | none => simp [hbz] at hout
  | some bz =>
    cases hsorted : MustSortJSON bz with
    | none => simp [hbz, hsorted] at hout
    | some sorted =>
      simp only [hbz, hsorted, Except.ok.injEq] at hout
      subst hout
      obtain ⟨vals0, vals, hvals, hdec, hsame⟩ := hMarshal m bz hmap hbz
      have hread : ∀ k, (GoMap.get? m k = none ∧ GoMap.get? vals k = none) ∨
          ∃ v v', GoMap.get? m k = some v ∧ resolveValue decode v = some v' ∧
            GoMap.get? vals k = some v' := by
        intro k
        rw [hsame k]
        exact resolveRaw_get? decode m vals0 hvals k
      have hmsg' : ∀ i x, msgs[i]? = some x →
          ∃ v, decode x.GetSignBytes = some v ∧
            GoMap.get? vals ("msg" ++ fmtD (i + 1)) = some v := by
        intro i x hx
        rcases hread ("msg" ++ fmtD (i + 1)) with ⟨h1, _⟩ | ⟨v, v', h1, h2, h3⟩
        · rw [hmsg i x hx] at h1; cases h1
        · rw [hmsg i x hx] at h1
          injection h1 with h1
          subst h1
          exact ⟨v', h2, h3⟩
      have hother' : ∀ k, k ≠ "msgs" → (∀ i, i < msgs.length → k ≠ "msg" ++ fmtD (i + 1)) →
          GoMap.get? vals k = GoMap.get? base k := by
        intro k hk hki
        rcases hread k with ⟨h1, h2⟩ | ⟨v, v', h1, h2, h3⟩
        · rw [h2, ← hother k hk hki, h1]
        · rw [hother k hk hki] at h1
          rw [resolveValue_of_not_raw decode v
            (fun raw hv => hvalues k raw (by rw [h1, hv]))] at h2
          injection h2 with h2
          rw [h3, h1, h2]
      refine ⟨vals, by rw [hSort bz sorted hsorted, hdec], ?_, hmsg', hother', ?_⟩
      · rcases hread "msgs" with ⟨_, h2⟩ | ⟨v, v', h1, _, _⟩
        · exact h2
        · rw [hmsgs] at h1; cases h1
      · intro hnone K
        constructor
        · intro hK
          by_contra hrange
          apply hK
          rw [hother' _ (msgAttrName_ne_msgs K) ?_]
          · exact hnone K
          · intro i hi hh
            have := msgAttrName_inj hh
            omega
        · rintro ⟨hK1, hK2⟩
          have hlt : K - 1 < msgs.length := by omega
          obtain ⟨v, _, hv⟩ := hmsg' (K - 1) msgs[K - 1] (List.getElem?_eq_getElem hlt)
          rw [show K - 1 + 1 = K by omega] at hv
          rw [hv]; simp

set_option maxRecDepth 100000

/-- C14 refuted as stated: a message implementing LegacyMsg whose sign bytes hold the
integer 12345678901234567890. The returned document holds under `msg1` the text with the
number 12345678901234567000, which is not the message's sign bytes, and the sign bytes
occur nowhere in the returned bytes. -/
theorem ConstructUntypedEIP712Data_output_counterexample :
    (∀ m ∈ bigNumberMsgs, m.implementsLegacyMsg = true) ∧
    ConstructUntypedEIP712Data bigNumberStdSignBytes bigNumberDecode bigNumberMarshal
      bigNumberSort "c" 0 0 0 () bigNumberMsgs "" = .ok bigNumberOutput ∧
    bigNumberOutput
      = bytesOf
          "\x7b\"account_number\":\"0\",\"chain_id\":\"c\",\"fee\":\x7b\"amount\":[],\"gas\":\"0\"\x7d,\"memo\":\"\",\"msg1\":"
        ++ bytesOf
          "\x7b\"n\":12345678901234567000\x7d"
        ++ bytesOf ",\"sequence\":\"0\"\x7d" ∧
    bigNumberMsgs.map (fun m => m.GetSignBytes)
      = [bytesOf "\x7b\"n\":12345678901234567890\x7d"] ∧
    bytesOf
          "\x7b\"n\":12345678901234567000\x7d"
      ≠ bytesOf "\x7b\"n\":12345678901234567890\x7d" ∧
    ¬ bigNumberSignBytes <:+: bigNumberOutput :=
  ⟨by decide, rfl, by decide, by decide, by decide, by decide⟩

/-- C14 (amended) on the same example: the returned bytes decode to an object without
`msgs` whose `msg1` is the value that the sign bytes decode to (the number read as the
float64 12345678901234567168) and whose `chain_id` is that of the sign document. -/
theorem ConstructUntypedEIP712Data_output_witness :
    ConstructUntypedEIP712Data bigNumberStdSignBytes bigNumberDecode bigNumberMarshal
      bigNumberSort "c" 0 0 0 () bigNumberMsgs "" = .ok bigNumberOutput ∧
    ∃ obj, bigNumberDecode bigNumberOutput = some (.object obj) ∧
      GoMap.get? obj "msgs" = none ∧
      (∃ v, bigNumberDecode bigNumberSignBytes = some v ∧ GoMap.get? obj "msg1" = some v) ∧
      GoMap.get? obj "chain_id" = some (.string "c") := by
  have h := ConstructUntypedEIP712Data_output bigNumberStdSignBytes bigNumberDecode
    bigNumberMarshal bigNumberSort "c" 0 0 0 () bigNumberMsgs ""
    [ ("account_number", .string "0"), ("chain_id", .string "c"),
      ("fee", .object [("amount", .array []), ("gas", .string "0")]),
      ("memo", .string ""),
      ("msgs", .array [.object [("n", .number 12345678901234567168)]]),
      ("sequence", .string "0") ]
    (by decide) rfl
    (by
      intro k raw hk
      simp only [GoMap.get?] at hk
      split_ifs at hk <;> cases hk)
    (by
      intro m bz hm hbz
      have hmap : untypedEIP712Map bigNumberDecode
          (bigNumberStdSignBytes "c" 0 0 0 () bigNumberMsgs "") bigNumberMsgs
          = .ok (some
            [ ("account_number", .string "0"), ("chain_id", .string "c"),
              ("fee", .object [("amount", .array []), ("gas", .string "0")]),
              ("memo", .string ""), ("sequence", .string "0"),
              ("msg1", .rawMessage bigNumberSignBytes) ]) := rfl
      rw [hmap] at hm
      injection hm with hm
      injection hm with hm
      subst hm
      have hbz' : bigNumberMarshal (some
          [ ("account_number", .string "0"), ("chain_id", .string "c"),
            ("fee", .object [("amount", .array []), ("gas", .string "0")]),
            ("memo", .string ""), ("sequence", .string "0"),
            ("msg1", .rawMessage bigNumberSignBytes) ]) = some bigNumberMarshalled := rfl
      rw [hbz'] at hbz
      injection hbz with hbz
      subst hbz
      refine ⟨_, _, rfl, rfl, ?_⟩
      intro k
      simp only [GoMap.get?]
      split_ifs <;>
        first
        | rfl
        | (rename_i ha hb; exact absurd (ha.trans hb.symm) (by decide)))
    (by
      intro bz sorted hs
      unfold bigNumberSort at hs
      split at hs
      · rename_i hbz
        injection hs with hs
        subst hs
        subst hbz
        rfl
      · cases hs)
  have hout : ConstructUntypedEIP712Data bigNumberStdSignBytes bigNumberDecode bigNumberMarshal
      bigNumberSort "c" 0 0 0 () bigNumberMsgs "" = .ok bigNumberOutput := rfl
  obtain ⟨obj, hdec, hmsgs, hmsg, hother, _⟩ := h.2 bigNumberOutput hout
  refine ⟨hout, obj, hdec, hmsgs, ?_, ?_⟩
  · exact hmsg 0 ⟨true, bigNumberSignBytes⟩ rfl
  · rw [hother "chain_id" (by decide) ?_]
    · rfl
    · intro i hi
      have hi1 : i < 1 := hi
      interval_cases i; decide

/-! ## `MigrateStore` -/

/-- On a store with a key table, `MigrateStore` is the write of the allow-list. -/
theorem MigrateStore_with_table (s : Subspace) (h : s.table ≠ []) :
    MigrateStore s =
      match s.Set ParamStoreKeyEIP712AllowedMsgs (.allowedMsgs NewAllowedMsgs) with
      | .error p => .error p
      | .ok paramstore => .ok (paramstore, none) := by
  have hlen : 0 < s.table.length := List.length_pos.2 h
  simp [MigrateStore, Subspace.HasKeyTable, hlen]

/-- On a store without a key table, `MigrateStore` installs `ParamKeyTable()` and writes
the allow-list. -/
theorem MigrateStore_without_table (s : Subspace) (h : s.table = []) :
    MigrateStore s = .ok
      ({ table := ParamKeyTable
         store := GoMap.set s.store ParamStoreKeyEIP712AllowedMsgs
          (.allowedMsgs NewAllowedMsgs) }, none) := by
  obtain ⟨table, store⟩ := s
  simp only at h
  subst h
  rfl

/-- C15 refuted as stated: the key table of `v2typesSubspace` recognises the key
`EIP712AllowedMsgs`, but registers it with the slice type of another package; on this store
`MigrateStore` panics with a type mismatch instead of returning a nil error. -/
theorem MigrateStore_writes_allowlist_counterexample :
    v2typesSubspace.HasKeyTable = true ∧
    GoMap.get? v2typesSubspace.table ParamStoreKeyEIP712AllowedMsgs
      = some ⟨"github.com/tharsis/ethermint/x/evm/migrations/v2/types",
          "[]types.EIP712AllowedMsg"⟩ ∧
    MigrateStore v2typesSubspace = .error "type mismatch with registered table" :=
  ⟨rfl, rfl, rfl⟩

/-- C15 (amended): on every parameter store whose key table registers the key
`EIP712AllowedMsgs`: when the registered type is the allow-list type of `x/evm/types`,
`MigrateStore` returns a nil error, afterwards reading the parameter yields
`NewAllowedMsgs`, every other stored parameter is unchanged, and so is the key table;
when the key is registered with any other type, `MigrateStore` panics with a type
mismatch. -/
theorem MigrateStore_writes_allowlist (s : Subspace) (ty : GoType)
    (hkey : GoMap.get? s.table ParamStoreKeyEIP712AllowedMsgs = some ty) :
    (ty = allowedMsgsGoType →
      ∃ s', MigrateStore s = .ok (s', none) ∧
        s'.Get ParamStoreKeyEIP712AllowedMsgs allowedMsgsGoType
          = .ok (.allowedMsgs NewAllowedMsgs) ∧
        (∀ k, k ≠ ParamStoreKeyEIP712AllowedMsgs →
          GoMap.get? s'.store k = GoMap.get? s.store k) ∧
        s'.table = s.table) ∧
    (ty ≠ allowedMsgsGoType →
      MigrateStore s = .error "type mismatch with registered table") := by
  have hne : s.table ≠ [] := by
    intro h; rw [h] at hkey; simp [GoMap.get?] at hkey
  refine ⟨?_, ?_⟩
  · intro hty
    subst hty
    refine ⟨⟨s.table, GoMap.set s.store ParamStoreKeyEIP712AllowedMsgs
      (.allowedMsgs NewAllowedMsgs)⟩, ?_, ?_, ?_, rfl⟩
    · rw [MigrateStore_with_table s hne]
      simp [Subspace.Set, Subspace.checkType, hkey, ParamValue.reflectType]
    · simp [Subspace.Get, Subspace.checkType, hkey, GoMap.get?_set_eq, ParamValue.goType,
        allowedMsgsGoType]
    · intro k hk
      exact GoMap.get?_set_of_ne _ _ (Ne.symm hk)
  · intro hty
    rw [MigrateStore_with_table s hne]
    have hty' : ¬ allowedMsgsGoType = ty := fun h => hty h.symm
    simp [Subspace.Set, Subspace.checkType, hkey, ParamValue.reflectType, hty']

/-- C15 (amended) on sample stores: with the key table of `x/evm/types` the empty
allow-list is replaced by `NewAllowedMsgs` and the denomination is untouched; with the key
table of `migrations/v2/types` the migration panics. -/
theorem MigrateStore_writes_allowlist_witness :
    (∃ s', MigrateStore sampleSubspace = .ok (s', none) ∧
      s'.Get ParamStoreKeyEIP712AllowedMsgs allowedMsgsGoType
        = .ok (.allowedMsgs NewAllowedMsgs) ∧
      GoMap.get? s'.store "EVMDenom" = GoMap.get? sampleSubspace.store "EVMDenom") ∧
    MigrateStore v2typesSubspace = .error "type mismatch with registered table" := by
  obtain ⟨s', h1, h2, h3, _⟩ :=
    (MigrateStore_writes_allowlist sampleSubspace allowedMsgsGoType rfl).1 rfl
  exact ⟨⟨s', h1, h2, h3 "EVMDenom" (by decide)⟩,
    (MigrateStore_writes_allowlist v2typesSubspace _ rfl).2 (by decide)⟩

/-- C16 refuted as stated: on a store without a key table `MigrateStore` does not abort;
it installs the key table, writes the allow-list and returns a nil error. -/
theorem MigrateStore_aborts_counterexample :
    bareSubspace.HasKeyTable = false ∧
    GoMap.get? bareSubspace.table ParamStoreKeyEIP712AllowedMsgs = none ∧
    MigrateStore bareSubspace = .ok
      ({ table := ParamKeyTable
         store := [("EVMDenom", .other "string"),
          ("EIP712AllowedMsgs", .allowedMsgs NewAllowedMsgs)] }, none) :=
  ⟨rfl, rfl, rfl⟩

/-- C16 (amended): on a store whose key table is not empty and does not register the key
`EIP712AllowedMsgs`, `MigrateStore` panics (parameter not registered) and writes nothing;
on a store without a key table it installs `ParamKeyTable()`, writes the allow-list and
returns a nil error; in no case does it return without the allow-list being stored. -/
theorem MigrateStore_aborts_or_writes (s : Subspace) :
    (s.table ≠ [] → GoMap.get? s.table ParamStoreKeyEIP712AllowedMsgs = none →
      MigrateStore s = .error "parameter EIP712AllowedMsgs not registered") ∧
    (s.table = [] →
      ∃ s', MigrateStore s = .ok (s', none) ∧ s'.table = ParamKeyTable ∧
        GoMap.get? s'.store ParamStoreKeyEIP712AllowedMsgs
          = some (.allowedMsgs NewAllowedMsgs) ∧
        ∀ k, k ≠ ParamStoreKeyEIP712AllowedMsgs →
          GoMap.get? s'.store k = GoMap.get? s.store k) ∧
    (∀ s' err, MigrateStore s = .ok (s', err) →
      err = none ∧
      GoMap.get? s'.store ParamStoreKeyEIP712AllowedMsgs
        = some (.allowedMsgs NewAllowedMsgs)) := by
  refine ⟨?_, ?_, ?_⟩
  · intro hne hkey
    rw [MigrateStore_with_table s hne]
    simp only [Subspace.Set, Subspace.checkType, hkey]
    rfl
  · intro hnil
    exact ⟨_, MigrateStore_without_table s hnil, rfl, GoMap.get?_set_eq _ _ _,
      fun k hk => GoMap.get?_set_of_ne _ _ (Ne.symm hk)⟩
  · intro s' err hrun
    by_cases hnil : s.table = []
    · rw [MigrateStore_without_table s hnil] at hrun
      simp only [Except.ok.injEq, Prod.mk.injEq] at hrun
      obtain ⟨hs, he⟩ := hrun
      subst hs
      exact ⟨he.symm, GoMap.get?_set_eq _ _ _⟩
    · rw [MigrateStore_with_table s hnil] at hrun
      cases hset : s.Set ParamStoreKeyEIP712AllowedMsgs (.allowedMsgs NewAllowedMsgs) with
      | error p => simp [hset] at hrun
      | ok ps =>
        simp only [hset, Except.ok.injEq, Prod.mk.injEq] at hrun
        obtain ⟨hs, he⟩ := hrun
        subst hs
        refine ⟨he.symm, ?_⟩
        simp only [Subspace.Set] at hset
        split at hset
        · cases hset
        · simp only [Except.ok.injEq] at hset
          subst hset
          exact GoMap.get?_set_eq _ _ _

/-- C16 (amended) on sample stores: the store whose key table lacks the key makes
`MigrateStore` panic; the store without a key table is migrated. -/
theorem MigrateStore_aborts_or_writes_witness :
    MigrateStore legacySubspace = .error "parameter EIP712AllowedMsgs not registered" ∧
    ∃ s', MigrateStore bareSubspace = .ok (s', none) ∧ s'.table = ParamKeyTable ∧
      GoMap.get? s'.store ParamStoreKeyEIP712AllowedMsgs
        = some (.allowedMsgs NewAllowedMsgs) := by
  refine ⟨(MigrateStore_aborts_or_writes legacySubspace).1 (by decide) rfl, ?_⟩
  obtain ⟨s', h1, h2, h3, _⟩ := (MigrateStore_aborts_or_writes bareSubspace).2.1 rfl
  exact ⟨s', h1, h2, h3⟩

/-! ## The shipped allow-list `NewAllowedMsgs` -/

/-- C21: the migration list `NewAllowedMsgs` is accepted by `validateEIP712AllowedMsgs`;
it has 18 entries and their type URLs are pairwise distinct. -/
theorem NewAllowedMsgs_valid :
    validateEIP712AllowedMsgs (.allowedMsgs NewAllowedMsgs) = none ∧
    NewAllowedMsgs.length = 18 ∧
    (NewAllowedMsgs.map fun a => a.MsgTypeUrl).Nodup := by
  decide

theorem NewAllowedMsgs_selfContained : ∀ a ∈ NewAllowedMsgs, schemaSelfContained a := by
  unfold schemaSelfContained
  decide

theorem digitChar_isDigit (k : Nat) (h : k < 10) : (Nat.digitChar k).isDigit = true := by
  interval_cases k <;> rfl

theorem toDigitsCore_isDigit (fuel : Nat) : ∀ (n : Nat) (ds : List Char),
    (∀ c ∈ ds, c.isDigit = true) →
    ∀ c ∈ Nat.toDigitsCore 10 fuel n ds, c.isDigit = true := by
  induction fuel with
  | zero => intro n ds hds c hc; exact hds c (by simpa [Nat.toDigitsCore] using hc)
  | succ f ih =>
    intro n ds hds c hc
    have hd : ∀ x ∈ Nat.digitChar (n % 10) :: ds, x.isDigit = true := by
      intro x hx
      rcases List.mem_cons.1 hx with h1 | h1
      · rw [h1]; exact digitChar_isDigit _ (Nat.mod_lt n (by decide))
      · exact hds x h1
    simp only [Nat.toDigitsCore] at hc
    split at hc
    · exact hd c hc
    · exact ih _ _ hd c hc

/-- The decimal formatting of a number is a non-empty string of digits. -/
theorem fmtD_digits (n : Nat) :
    (fmtD n).data ≠ [] ∧ ∀ c ∈ (fmtD n).data, c.isDigit = true := by
  have hdata : (fmtD n).data = Nat.toDigitsCore 10 (n + 1) n [] := rfl
  rw [hdata]
  refine ⟨?_, toDigitsCore_isDigit (n + 1) n [] (by simp)⟩
  simp only [Nat.toDigitsCore]
  split
  · simp
  · rw [toDigitsCore_append]; simp

/-- A wrapper name is not an array type: stripping leaves it as it is. -/
theorem stripArray_msgTypeName (K : Nat) : stripArray ("Msg" ++ fmtD K) = "Msg" ++ fmtD K := by
  obtain ⟨hne, hdig⟩ := fmtD_digits K
  have hdata : ("Msg" ++ fmtD K).data = "Msg".data ++ (fmtD K).data := by
    simp [String.data_append]
  obtain ⟨init, last, hlast⟩ : ∃ init last, (fmtD K).data = init ++ [last] := by
    rcases List.eq_nil_or_concat (fmtD K).data with h | ⟨init, last, h⟩
    · exact absurd h hne
    · exact ⟨init, last, by simpa using h⟩
  have hd : last.isDigit = true := hdig last (by rw [hlast]; simp)
  have hrev : ("Msg" ++ fmtD K).data.reverse = last :: (init.reverse ++ "Msg".data.reverse) := by
    rw [hdata, hlast]; simp
  unfold stripArray
  rw [hrev]
  split
  · rename_i heq
    injection heq with h1 _
    rw [h1] at hd
    exact absurd hd (by decide)
  · rfl

/-! ## Where the entries of the graph come from -/

/-- An entry of the graph after the nested-type loop was there before, or is one of the
listed nested types with its declared attributes. -/
theorem addNestedTypes_entry (ns : List EIP712NestedMsgType) :
    ∀ (g : Types) (k : String) (v : List ApiType), (addNestedTypes ns g).get? k = some v →
      g.get? k = some v ∨ ∃ n ∈ ns, k = n.Name ∧ v = msgAttrsToEIP712Types n.Attrs := by
  induction ns with
  | nil => intro g k v h; exact Or.inl (by simpa [addNestedTypes] using h)
  | cons n rest ih =>
    intro g k v h
    simp only [addNestedTypes] at h
    split at h
    · rcases ih _ k v h with h1 | ⟨n', hn', hk, hv⟩
      · by_cases hkn : n.Name = k
        · rw [← hkn, Types.get?_set_self] at h1
          injection h1 with h1
          exact Or.inr ⟨n, List.mem_cons_self _ _, hkn.symm, h1.symm⟩
        · rw [Types.get?_set_ne _ _ hkn] at h1
          exact Or.inl h1
      · exact Or.inr ⟨n', List.mem_cons_of_mem _ hn', hk, hv⟩
    · rcases ih _ k v h with h1 | ⟨n', hn', hk, hv⟩
      · exact Or.inl h1
      · exact Or.inr ⟨n', List.mem_cons_of_mem _ hn', hk, hv⟩

/-- An entry of the graph after one iteration is the extended `Tx`, the wrapper, an entry
that was there before, or (when the schema's value type and nested types were registered,
so that every nested type has an entry) the declared value fields or a declared nested
type. -/
theorem addMsgTypes_entry (i : Nat) (a : EIP712AllowedMsg) (g : Types) (k : String)
    (v : List ApiType) (h : (addMsgTypes i a g).get? k = some v) :
    (k = "Tx" ∧
      v = g.index "Tx" ++ [⟨"msg" ++ fmtD (i + 1), "Msg" ++ fmtD (i + 1)⟩]) ∨
    (k = "Msg" ++ fmtD (i + 1) ∧
      v = [⟨"type", "string"⟩, ⟨"value", a.MsgValueTypeName⟩]) ∨
    g.get? k = some v ∨
    ((∀ n ∈ a.NestedTypes, (addMsgTypes i a g).get? n.Name ≠ none) ∧
      ((k = a.MsgValueTypeName ∧ v = msgAttrsToEIP712Types a.ValueTypes) ∨
        ∃ n ∈ a.NestedTypes, k = n.Name ∧ v = msgAttrsToEIP712Types n.Attrs)) := by
  by_cases hTx : k = "Tx"
  · subst hTx
    rw [addMsgTypes_Tx] at h
    injection h with h
    exact Or.inl ⟨rfl, h.symm⟩
  by_cases hMsg : k = "Msg" ++ fmtD (i + 1)
  · subst hMsg
    rw [addMsgTypes_wrapper] at h
    injection h with h
    exact Or.inr (Or.inl ⟨rfl, h.symm⟩)
  have hbase : ∀ w t, ((g.set "Tx" t).set ("Msg" ++ fmtD (i + 1)) w).get? k = g.get? k := by
    intro w t
    rw [Types.get?_set_ne _ _ (Ne.symm hMsg), Types.get?_set_ne _ _ (Ne.symm hTx)]
  simp only [addMsgTypes] at h ⊢
  split at h
  · rename_i hnone
    simp only [hnone, if_true]
    rcases addNestedTypes_entry _ _ k v h with h1 | h1
    · by_cases hkv : a.MsgValueTypeName = k
      · rw [← hkv, Types.get?_set_self] at h1
        injection h1 with h1
        exact Or.inr (Or.inr (Or.inr
          ⟨fun n hn => addNestedTypes_present _ _ n hn, Or.inl ⟨hkv.symm, h1.symm⟩⟩))
      · rw [Types.get?_set_ne _ _ hkv, hbase] at h1
        exact Or.inr (Or.inr (Or.inl h1))
    · exact Or.inr (Or.inr (Or.inr
        ⟨fun n hn => addNestedTypes_present _ _ n hn, Or.inr h1⟩))
  · rw [hbase] at h
    exact Or.inr (Or.inr (Or.inl h))

/-! ## Closure of the graph -/

/-- A resolved field stays resolved in a graph that has every key of the first one. -/
theorem fieldResolved_mono {g g' : Types} (hsub : ∀ k, g.get? k ≠ none → g'.get? k ≠ none)
    {f : ApiType} (h : fieldResolved g f) : fieldResolved g' f := by
  rcases h with h | h
  · exact Or.inl h
  · exact Or.inr (hsub _ h)

/-- One iteration with a self-contained schema keeps the graph closed: if every field of
every entry resolves and the root names have entries before, then so it is after. -/
theorem addMsgTypes_closed (i : Nat) (a : EIP712AllowedMsg) (g : Types)
    (ha : schemaSelfContained a)
    (hroot : ∀ k, getRootTypes.get? k ≠ none → g.get? k ≠ none)
    (hclosed : ∀ k v, g.get? k = some v → ∀ f ∈ v, fieldResolved g f) :
    ∀ k v, (addMsgTypes i a g).get? k = some v →
      ∀ f ∈ v, fieldResolved (addMsgTypes i a g) f := by
  have hsub : ∀ k, g.get? k ≠ none → (addMsgTypes i a g).get? k ≠ none :=
    fun k hk => addMsgTypes_present i a g k hk
  have hself : ∀ (nested : ∀ n ∈ a.NestedTypes, (addMsgTypes i a g).get? n.Name ≠ none)
      (ty : String),
      (stripArray ty ∈ ["string", "uint256", "uint64", "int32"] ∨
        getRootTypes.get? (stripArray ty) ≠ none ∨
        ∃ n ∈ a.NestedTypes, n.Name = stripArray ty) →
      stripArray ty ∈ ["string", "uint256", "uint64", "int32"] ∨
        (addMsgTypes i a g).get? (stripArray ty) ≠ none := by
    intro nested ty hty
    rcases hty with h | h | ⟨n, hn, hname⟩
    · exact Or.inl h
    · exact Or.inr (hsub _ (hroot _ h))
    · exact Or.inr (hname ▸ nested n hn)
  intro k v hkv f hf
  rcases addMsgTypes_entry i a g k v hkv with ⟨_, hv⟩ | ⟨_, hv⟩ | hold | ⟨nested, hnew⟩
  · subst hv
    rcases List.mem_append.1 hf with h1 | h1
    · cases hTx : g.get? "Tx" with
      | none => simp [Types.index, hTx] at h1
      | some t =>
        simp only [Types.index, hTx, Option.getD_some] at h1
        exact fieldResolved_mono hsub (hclosed "Tx" t hTx f h1)
    · simp only [List.mem_singleton] at h1
      subst h1
      refine Or.inr ?_
      show (addMsgTypes i a g).get? (stripArray ("Msg" ++ fmtD (i + 1))) ≠ none
      rw [stripArray_msgTypeName, addMsgTypes_wrapper]
      simp
  · subst hv
    simp only [List.mem_cons, List.mem_singleton, List.not_mem_nil, or_false] at hf
    rcases hf with h1 | h1
    · subst h1; exact Or.inl (by decide)
    · subst h1
      refine Or.inr ?_
      show (addMsgTypes i a g).get? (stripArray a.MsgValueTypeName) ≠ none
      rw [ha.1]
      exact addMsgTypes_value_present i a g
  · exact fieldResolved_mono hsub (hclosed k v hold f hf)
  · rcases hnew with ⟨_, hv⟩ | ⟨n, hn, _, hv⟩
    · subst hv
      obtain ⟨x, hx, rfl⟩ := List.mem_map.1 hf
      exact hself nested x.Type_ (ha.2.1 x hx)
    · subst hv
      obtain ⟨x, hx, rfl⟩ := List.mem_map.1 hf
      exact hself nested x.Type_ (ha.2.2 n hn x hx)

/-- A successful loop over an allow-list of self-contained schemas keeps the graph closed. -/
theorem extractMsgTypesLoop_closed {CC : Type} (params : Params CC)
    (hschemas : ∀ a ∈ params.EIP712AllowedMsgs, schemaSelfContained a) (msgs : List Msg) :
    ∀ (i : Nat) (g : Types), (extractMsgTypesLoop params i msgs g).2 = none →
      (∀ k, getRootTypes.get? k ≠ none → g.get? k ≠ none) →
      (∀ k v, g.get? k = some v → ∀ f ∈ v, fieldResolved g f) →
      ∀ k v, (extractMsgTypesLoop params i msgs g).1.get? k = some v →
        ∀ f ∈ v, fieldResolved (extractMsgTypesLoop params i msgs g).1 f := by
  induction msgs with
  | nil => intro i g _ _ hclosed; simpa [extractMsgTypesLoop] using hclosed
  | cons m rest ih =>
    intro i g h hroot hclosed
    obtain ⟨_, a, ha, heq⟩ := extractMsgTypesLoop_cons_success params i m rest g h
    rw [heq] at h ⊢
    have hmem : a ∈ params.EIP712AllowedMsgs := by
      obtain ⟨pre, post, hl, _, _⟩ := (allowedMsgFromMsgTypeLoop_eq_some _ _ a).1 ha
      rw [hl]; simp
    exact ih (i + 1) _ h (fun k hk => addMsgTypes_present i a g k (hroot k hk))
      (addMsgTypes_closed i a g (hschemas a hmem) hroot hclosed)

/-- The root graph is closed. -/
theorem getRootTypes_closed :
    ∀ k v, getRootTypes.get? k = some v → ∀ f ∈ v, fieldResolved getRootTypes f := by
  intro k v hkv f hf
  have hmem : ∀ e ∈ getRootTypes, ∀ f ∈ e.2, fieldResolved getRootTypes f := by
    unfold fieldResolved
    decide
  have hin : ∀ (g : Types), g.get? k = some v → (k, v) ∈ g := by
    intro g
    induction g with
    | nil => intro h; simp [Types.get?] at h
    | cons e rest ih =>
      obtain ⟨k0, v0⟩ := e
      intro h
      by_cases hk : k0 = k
      · simp only [Types.get?, hk, if_true, Option.some.injEq] at h
        subst hk; subst h; exact List.mem_cons_self _ _
      · simp only [Types.get?, hk, if_false] at h
        exact List.mem_cons_of_mem _ (ih h)
  exact hmem (k, v) (hin _ hkv) f hf

/-- C22: with `NewAllowedMsgs` as the allow-list, for every list of messages that
implement LegacyMsg and whose type URLs belong to `NewAllowedMsgs`, `extractMsgTypes`
succeeds and every field type of every entry of the returned graph is, without a trailing
`[]`, one of `string`, `uint256`, `uint64`, `int32` or the name of an entry of that
graph. -/
theorem extractMsgTypes_closed_NewAllowedMsgs {CC : Type} (params : Params CC)
    (hparams : params.EIP712AllowedMsgs = NewAllowedMsgs) (msgs : List Msg)
    (hmsgs : ∀ m ∈ msgs, m.implementsLegacyMsg = true ∧
      ∃ a ∈ NewAllowedMsgs, a.MsgTypeUrl = m.MsgTypeURL) :
    (extractMsgTypes msgs params).2 = none ∧
    ∀ k v, (extractMsgTypes msgs params).1.get? k = some v → ∀ f ∈ v,
      stripArray f.Type_ ∈ ["string", "uint256", "uint64", "int32"] ∨
      (extractMsgTypes msgs params).1.get? (stripArray f.Type_) ≠ none := by
  have hok : (extractMsgTypes msgs params).2 = none := by
    apply extractMsgTypesLoop_success
    intro m hm
    refine ⟨(hmsgs m hm).1, (lookup_ne_none_iff params _).2 ?_⟩
    rw [hparams]; exact (hmsgs m hm).2
  refine ⟨hok, ?_⟩
  exact extractMsgTypesLoop_closed params
    (by rw [hparams]; exact NewAllowedMsgs_selfContained) msgs 0 getRootTypes hok
    (fun k hk => hk) getRootTypes_closed

/-- C22 on a claim of rewards and a vote: the field `denoms_to_claim` of type
`IncentiveSelection[]` resolves to the entry `IncentiveSelection` of the graph. -/
theorem extractMsgTypes_closed_NewAllowedMsgs_witness :
    (extractMsgTypes migratedMsgs migratedParams).2 = none ∧
    (extractMsgTypes migratedMsgs migratedParams).1.get? "MsgValueIncentiveClaimHardReward"
      = some [⟨"sender", "string"⟩, ⟨"denoms_to_claim", "IncentiveSelection[]"⟩] ∧
    stripArray "IncentiveSelection[]" = "IncentiveSelection" ∧
    (stripArray "IncentiveSelection[]" ∈ ["string", "uint256", "uint64", "int32"] ∨
      (extractMsgTypes migratedMsgs migratedParams).1.get?
        (stripArray "IncentiveSelection[]") ≠ none) := by
  have h := extractMsgTypes_closed_NewAllowedMsgs migratedParams rfl migratedMsgs (by decide)
  exact ⟨h.1, by decide, by decide,
    h.2 "MsgValueIncentiveClaimHardReward"
      [⟨"sender", "string"⟩, ⟨"denoms_to_claim", "IncentiveSelection[]"⟩] (by decide)
      ⟨"denoms_to_claim", "IncentiveSelection[]"⟩ (by decide)⟩

/-! ## The merge loses nothing on a registry that merges cleanly -/

end Eip712
